import Mathlib

/-!
# ec-cli: criteria resolution and build sign-off

A shallow embedding of

* `internal/evaluator/criteria.go` (`NewCriteria`, `computeIncludeExclude`),
* `internal/image/build.go` (`BuildSignoffSource`, `GetBuildSignOff`),
* `cmd/sign_off.go` and `cmd/signOff.go` (`validate`, the two `RunE` loops),
* `internal/applicationsnapshot/attestation.go` (`renderAttestations`,
  `attestations`),
* `SLSAProvenanceFromSignature` of `internal/attestation`, after the
  specification and the test cases of `slsa_provenance_02_test.go`,

together with the properties the specification states about them.

Conventions.  A Go `string` is a Lean `String`, a Go slice is a `List` (a nil
slice is the empty list), a nillable pointer is an `Option`.  A `time.Time` is
the instant it denotes, as an integer number of nanoseconds since the Unix
epoch; `Time.Compare` compares instants.  The warnings written with
`log.Warnf` are returned as a list, in the order they are written.
-/

set_option autoImplicit false

namespace Ec

/-! ## `time.Parse(time.RFC3339, ·)` -/

/-- An instant, in nanoseconds since 1970-01-01T00:00:00Z. -/
abbrev Time := Int

/-- Go `isDigit`: an ASCII decimal digit. -/
def isDigit (c : Char) : Bool := decide (48 ≤ c.toNat ∧ c.toNat ≤ 57)

/-- The value of a decimal digit. -/
def digitVal (c : Char) : Nat := c.toNat - 48

/-- Go `getnum(s, true)`: exactly two leading digits. -/
def getnumFixed : List Char → Option (Nat × List Char)
  | a :: b :: rest =>
    if isDigit a && isDigit b then some (digitVal a * 10 + digitVal b, rest) else none
  | _ => none

/-- Go `getnum(s, false)`: one or two leading digits. -/
def getnum : List Char → Option (Nat × List Char)
  | [] => none
  | [a] => if isDigit a then some (digitVal a, []) else none
  | a :: b :: rest =>
    if isDigit a then
      if isDigit b then some (digitVal a * 10 + digitVal b, rest)
      else some (digitVal a, b :: rest)
    else none

/-- The four-digit year of the `2006` layout element. -/
def getYear : List Char → Option (Nat × List Char)
  | a :: b :: c :: d :: rest =>
    if isDigit a && isDigit b && isDigit c && isDigit d then
      some (((digitVal a * 10 + digitVal b) * 10 + digitVal c) * 10 + digitVal d, rest)
    else none
  | _ => none

/-- A literal layout character. -/
def expectChar (c : Char) : List Char → Option (List Char)
  | a :: rest => if a = c then some rest else none
  | [] => none

/-- Go `isLeap`. -/
def isLeap (year : Nat) : Bool :=
  year % 4 = 0 && (year % 100 ≠ 0 || year % 400 = 0)

/-- Go `daysIn`. -/
def daysIn (month year : Nat) : Nat :=
  if month = 2 then (if isLeap year then 29 else 28)
  else if month = 4 ∨ month = 6 ∨ month = 9 ∨ month = 11 then 30
  else 31

/-- Days from 1970-01-01 to the given proleptic Gregorian date. -/
def daysFromCivil (year month day : Nat) : Int :=
  let y : Int := if month ≤ 2 then (year : Int) - 1 else year
  let era : Int := y / 400
  let yoe : Int := y - era * 400
  let mp : Int := if month > 2 then (month : Int) - 3 else (month : Int) + 9
  let doy : Int := (153 * mp + 2) / 5 + (day : Int) - 1
  let doe : Int := yoe * 365 + yoe / 4 - yoe / 100 + doy
  era * 146097 + doe - 719468

/-- The digits of a fractional second after the separator: the first nine
count, right-padded with zeros (Go `parseNanoseconds`); the rest of the input
follows the last digit. -/
def fracDigits : Nat → Nat → List Char → Nat × List Char
  | k, acc, [] => (acc * 10 ^ k, [])
  | k, acc, c :: rest =>
    if isDigit c then
      match k with
      | 0 => fracDigits 0 acc rest
      | k + 1 => fracDigits k (acc * 10 + digitVal c) rest
    else (acc * 10 ^ k, c :: rest)

/-- An optional fractional second: a comma or period followed by a digit. -/
def getFrac : List Char → Nat × List Char
  | s :: d :: rest =>
    if (s = '.' ∨ s = ',') ∧ isDigit d = true then fracDigits 9 0 (d :: rest)
    else (0, s :: d :: rest)
  | v => (0, v)

/-- The `Z07:00` layout element: `Z`, or a sign and `hh:mm`; the offset in
seconds east of UTC. -/
def getZone : List Char → Option (Int × List Char)
  | 'Z' :: rest => some (0, rest)
  | sg :: h1 :: h2 :: ':' :: m1 :: m2 :: rest =>
    match getnumFixed [h1, h2], getnumFixed [m1, m2] with
    | some (hr, _), some (mm, _) =>
      if hr > 24 ∨ mm > 60 then none
      else if sg = '+' then some ((((hr * 60 + mm) * 60 : Nat) : Int), rest)
      else if sg = '-' then some (-(((hr * 60 + mm) * 60 : Nat) : Int), rest)
      else none
    | _, _ => none
  | _ => none

/-- A range check: `none` is the range error of `time.Parse`. -/
def inRange (ok : Bool) : Option Unit := if ok then some () else none

/-- The date of the layout, `2006-01-02T`: year, month and day; the day is
checked against the month at the end of the parse. -/
def getDate (value : List Char) : Option ((Nat × Nat × Nat) × List Char) := do
  let (year, v) ← getYear value
  let v ← expectChar '-' v
  let (month, v) ← getnumFixed v
  inRange (decide (1 ≤ month ∧ month ≤ 12))
  let v ← expectChar '-' v
  let (day, v) ← getnumFixed v
  let v ← expectChar 'T' v
  pure ((year, month, day), v)

/-- The time of day of the layout, `15:04:05`, in seconds, with the optional
fractional second in nanoseconds. -/
def getClock (value : List Char) : Option ((Nat × Nat) × List Char) := do
  let (hour, v) ← getnum value
  inRange (decide (hour < 24))
  let v ← expectChar ':' v
  let (min, v) ← getnumFixed v
  inRange (decide (min < 60))
  let v ← expectChar ':' v
  let (sec, v) ← getnumFixed v
  inRange (decide (sec < 60))
  let frac := getFrac v
  pure ((hour * 3600 + min * 60 + sec, frac.1), frac.2)

/-- A model of `time.Parse(time.RFC3339, value)` of the Go standard library:
the layout `2006-01-02T15:04:05Z07:00`, with the hour of one or two digits and
the optional fractional second that `time.Parse` accepts.  `none` is a parse
error. -/
def parseRFC3339Chars (value : List Char) : Option Time := do
  let (date, v) ← getDate value
  let (clock, v) ← getClock v
  let (zoneOffset, v) ← getZone v
  inRange (decide (v = []))
  inRange (decide (1 ≤ date.2.2 ∧ date.2.2 ≤ daysIn date.2.1 date.1))
  let secs : Int := daysFromCivil date.1 date.2.1 date.2.2 * 86400 + (clock.1 : Int) - zoneOffset
  pure (secs * 1000000000 + (clock.2 : Int))

/-- The function `time.Parse(time.RFC3339, ·)` on strings. -/
def parseRFC3339 (value : String) : Option Time := parseRFC3339Chars value.toList

/-! ## The policy data model (`ecc` API types) -/

/-- Type `ecc.VolatileCriteria`: a rule with an activation window. -/
structure VolatileCriteria where
  Value : String
  EffectiveOn : String
  EffectiveUntil : String
  ImageRef : String
  deriving DecidableEq, Repr

/-- Type `ecc.SourceConfig`: the static include and exclude lists. -/
structure SourceConfig where
  Include : List String
  Exclude : List String
  deriving DecidableEq, Repr

/-- Type `ecc.VolatileSourceConfig`: the volatile include and exclude rules. -/
structure VolatileSourceConfig where
  Include : List VolatileCriteria
  Exclude : List VolatileCriteria
  deriving DecidableEq, Repr

/-- Type `ecc.Source`, restricted to the fields the criteria read. -/
structure Source where
  Config : Option SourceConfig
  VolatileConfig : Option VolatileSourceConfig
  deriving DecidableEq, Repr

/-- Type `ecc.EnterpriseContractPolicyConfiguration`: the legacy
policy-wide configuration. -/
structure EnterpriseContractPolicyConfiguration where
  Collections : List String
  Exclude : List String
  Include : List String
  deriving DecidableEq, Repr

/-- Type `ecc.EnterpriseContractPolicySpec`, restricted to `Configuration`. -/
structure EnterpriseContractPolicySpec where
  Configuration : Option EnterpriseContractPolicyConfiguration
  deriving DecidableEq, Repr

/-- The interface `ConfigProvider`: what `EffectiveTime()` and `Spec()`
return. -/
structure ConfigProvider where
  EffectiveTime : Time
  Spec : EnterpriseContractPolicySpec
  deriving DecidableEq, Repr

/-- One `log.Warnf("unable to parse time for criteria %q, was given %q: ...")`
entry: the rule's value and the text that failed to parse. -/
structure Warning where
  criteria : String
  given : String
  deriving DecidableEq, Repr

/-- Type `Criteria` of `criteria.go`, with its fields `include` and `exclude`
(`include` is reserved in Lean). -/
structure Criteria where
  includeList : List String
  excludeList : List String
  deriving DecidableEq, Repr

/-! ## `computeIncludeExclude` -/

/-- A time bound of a rule (lines 41-47 and 48-54): the parsed instant, or the
evaluation instant when the text does not parse, with a warning unless the
text is empty. -/
def parseBound (atTime : Time) (value bound : String) (log : List Warning) :
    Time × List Warning :=
  match parseRFC3339 bound with
  | some t => (t, log)
  | none => (atTime, if bound ≠ "" then log ++ [⟨value, bound⟩] else log)

/-- The body of the loop of `filter` (lines 41-61) for one rule. -/
def filterStep (atTime : Time) (image : String)
    (st : List String × List Warning) (c : VolatileCriteria) :
    List String × List Warning :=
  let (effFrom, log1) := parseBound atTime c.Value c.EffectiveOn st.2
  let (effUntil, log2) := parseBound atTime c.Value c.EffectiveUntil log1
  if effUntil ≥ atTime ∧ effFrom ≤ atTime then
    if c.ImageRef ≠ "" ∧ c.ImageRef = image then (st.1 ++ [c.Value], log2)
    else if c.ImageRef = "" then (st.1 ++ [c.Value], log2)
    else (st.1, log2)
  else (st.1, log2)

/-- The closure `filter` of `computeIncludeExclude` (lines 39-65), with the
log threaded through. -/
def filter (atTime : Time) (image : String) (items : List String)
    (log : List Warning) (criteria : List VolatileCriteria) :
    List String × List Warning :=
  criteria.foldl (filterStep atTime image) (items, log)

/-- The function `computeIncludeExclude` of `criteria.go`: the include list,
the exclude list and the warnings logged. -/
def computeIncludeExclude (src : Source) (p : ConfigProvider) (image : String) :
    List String × List String × List Warning :=
  let (include0, exclude0) : List String × List String :=
    match src.Config with
    | some sc =>
      if sc.Include.length ≠ 0 ∨ sc.Exclude.length ≠ 0 then
        ([] ++ sc.Include, [] ++ sc.Exclude)
      else ([], [])
    | none => ([], [])
  let (include1, exclude1, log) : List String × List String × List Warning :=
    match src.VolatileConfig with
    | some vc =>
      let atTime := p.EffectiveTime
      let (inc, log1) := filter atTime image include0 [] vc.Include
      let (exc, log2) := filter atTime image exclude0 log1 vc.Exclude
      (inc, exc, log2)
    | none => (include0, exclude0, [])
  let (include2, exclude2) : List String × List String :=
    match p.Spec.Configuration with
    | some policyConfig =>
      if include1.length = 0 ∧ exclude1.length = 0 then
        ((include1 ++ policyConfig.Include) ++ policyConfig.Collections.map (fun collection => "@" ++ collection),
         exclude1 ++ policyConfig.Exclude)
      else (include1, exclude1)
    | none => (include1, exclude1)
  let include3 := if include2.length = 0 then ["*"] else include2
  (include3, exclude2, log)

/-- The function `NewCriteria` of `criteria.go`. -/
def NewCriteria (source : Source) (p : ConfigProvider) (image : String) : Criteria :=
  let r := computeIncludeExclude source p image
  { includeList := r.1, excludeList := r.2.1 }

/-! ## `regexp`: patterns, `MustCompile` and `FindStringSubmatch`

A model of the fragment of Go's `regexp` package that the sign-off patterns
use: literals, escapes, `.`, bracket classes, the Perl classes `\d \w \s`,
`^ $`, alternation, groups, the repetitions `* + ?` (greedy or lazy) and the
flag `(?i)`.  Matching is leftmost-first, the match a backtracking search
finds first.

The texts of the match and of its groups are modelled for the patterns in
which the body of every `*` and `+` consumes input (`loopsConsume`), as in the
default pattern.  For a repetition whose body can match the empty text, such
as `(|a)*` or `(a*?)+`, Go's result is fixed by the instructions of the
compiled program, which visits an instruction once at each position of the
text, and is not the one of `starLoop`; whether the pattern matches, and
where the leftmost match starts, is the same there. -/

/-- A parsed pattern (Go `syntax.Regexp`). -/
inductive Regex where
  | emptyMatch : Regex
  | literal (c : Char) (fold : Bool) : Regex
  | charClass (neg : Bool) (ranges : List (Char × Char)) (fold : Bool) : Regex
  | anyCharNotNL : Regex
  | beginText : Regex
  | endText : Regex
  | concat (a b : Regex) : Regex
  | alternate (a b : Regex) : Regex
  | star (a : Regex) (greedy : Bool) : Regex
  | plus (a : Regex) (greedy : Bool) : Regex
  | quest (a : Regex) (greedy : Bool) : Regex
  | capture (index : Nat) (a : Regex) : Regex
  deriving DecidableEq, Repr

/-- The characters equal to `x` under simple case folding, for an `x` whose
folding orbit meets ASCII: the other case of an ASCII letter, the Kelvin sign
with `k` and the long s with `s`. -/
def foldVariants (x : Char) : List Char :=
  let n := x.toNat
  if 65 ≤ n ∧ n ≤ 90 then
    [x, Char.ofNat (n + 32)] ++
      (if n = 75 then [Char.ofNat 0x212A] else if n = 83 then [Char.ofNat 0x17F] else [])
  else if 97 ≤ n ∧ n ≤ 122 then
    [x, Char.ofNat (n - 32)] ++
      (if n = 107 then [Char.ofNat 0x212A] else if n = 115 then [Char.ofNat 0x17F] else [])
  else if n = 0x212A then [x, 'K', 'k']
  else if n = 0x17F then [x, 'S', 's']
  else [x]

/-- Membership of a character in a list of inclusive ranges. -/
def inRanges (ranges : List (Char × Char)) (x : Char) : Bool :=
  ranges.any (fun r => decide (r.1.toNat ≤ x.toNat ∧ x.toNat ≤ r.2.toNat))

/-- Whether the literal `c` matches the character `x`. -/
def literalMatch (c : Char) (fold : Bool) (x : Char) : Bool :=
  if fold then (foldVariants x).contains c else x == c

/-- Whether a bracket class matches the character `x`: under `(?i)` the
ranges are closed under folding before the negation. -/
def classMatch (neg : Bool) (ranges : List (Char × Char)) (fold : Bool) (x : Char) : Bool :=
  let pos := if fold then (foldVariants x).any (inRanges ranges) else inRanges ranges x
  if neg then !pos else pos

/-- The capture registers: for each group, the text it last matched. -/
abbrev Caps := List (Option (List Char))

/-- A state of the search: the input left and the captures so far. -/
abbrev Thread := List Char × Caps

/-- The iterations of a repetition, in priority order.  An iteration has to
consume input, so at most as many iterations as characters are left take
place.  This is Go's loop for a body that cannot match the empty text
(`nullable`), where every iteration consumes input and the filter keeps all of
them (`run_filter_consuming`).  For a body that can match the empty text the
threads found are those of a match, but their order and captures are not
Go's: such patterns are excluded by `loopsConsume`. -/
def starLoop (step : List Char → Caps → List Thread) (greedy : Bool) :
    Nat → List Char → Caps → List Thread
  | 0, s, caps => [(s, caps)]
  | n + 1, s, caps =>
    let more := ((step s caps).filter (fun t => decide (t.1.length < s.length))).flatMap
      (fun t => starLoop step greedy n t.1 t.2)
    if greedy then more ++ [(s, caps)] else (s, caps) :: more

/-- All the ways the pattern matches a prefix of the input `s`, in the order a
backtracking search tries them; `total` is the length of the whole text. -/
def run (total : Nat) : Regex → List Char → Caps → List Thread
  | .emptyMatch, s, caps => [(s, caps)]
  | .literal c fold, s, caps =>
    match s with
    | x :: xs => if literalMatch c fold x then [(xs, caps)] else []
    | [] => []
  | .charClass neg ranges fold, s, caps =>
    match s with
    | x :: xs => if classMatch neg ranges fold x then [(xs, caps)] else []
    | [] => []
  | .anyCharNotNL, s, caps =>
    match s with
    | x :: xs => if x = '\n' then [] else [(xs, caps)]
    | [] => []
  | .beginText, s, caps => if s.length = total then [(s, caps)] else []
  | .endText, s, caps => if s.length = 0 then [(s, caps)] else []
  | .concat a b, s, caps => (run total a s caps).flatMap (fun t => run total b t.1 t.2)
  | .alternate a b, s, caps => run total a s caps ++ run total b s caps
  | .star a greedy, s, caps => starLoop (run total a) greedy s.length s caps
  | .plus a greedy, s, caps =>
    (run total a s caps).flatMap (fun t => starLoop (run total a) greedy t.1.length t.1 t.2)
  | .quest a greedy, s, caps =>
    if greedy then run total a s caps ++ [(s, caps)] else (s, caps) :: run total a s caps
  | .capture index a, s, caps =>
    (run total a s caps).map
      (fun t => (t.1, t.2.set (index - 1) (some (s.take (s.length - t.1.length)))))

/-- Go `NumSubexp`: the number of capturing groups. -/
def numSubexp : Regex → Nat
  | .concat a b => max (numSubexp a) (numSubexp b)
  | .alternate a b => max (numSubexp a) (numSubexp b)
  | .star a _ => numSubexp a
  | .plus a _ => numSubexp a
  | .quest a _ => numSubexp a
  | .capture index a => max index (numSubexp a)
  | _ => 0

/-- Whether the pattern can match the empty text (the field `nullable` of a
fragment in Go's `syntax` compiler). -/
def nullable : Regex → Bool
  | .emptyMatch => true
  | .literal _ _ => false
  | .charClass _ _ _ => false
  | .anyCharNotNL => false
  | .beginText => true
  | .endText => true
  | .concat a b => nullable a && nullable b
  | .alternate a b => nullable a || nullable b
  | .star _ _ => true
  | .plus a _ => nullable a
  | .quest _ _ => true
  | .capture _ a => nullable a

/-- Whether the body of every `*` and `+` of the pattern consumes input: no
repetition is over a body that can match the empty text. -/
def loopsConsume : Regex → Bool
  | .concat a b => loopsConsume a && loopsConsume b
  | .alternate a b => loopsConsume a && loopsConsume b
  | .star a _ => !nullable a && loopsConsume a
  | .plus a _ => !nullable a && loopsConsume a
  | .quest a _ => loopsConsume a
  | .capture _ a => loopsConsume a
  | _ => true

/-- The leftmost match: the first start position, scanning the text from its
beginning, at which the pattern matches, with the first thread there. -/
def search (re : Regex) (total : Nat) : List Char → Option (List Char × Thread)
  | [] =>
    match run total re [] (List.replicate (numSubexp re) none) with
    | t :: _ => some ([], t)
    | [] => none
  | x :: xs =>
    match run total re (x :: xs) (List.replicate (numSubexp re) none) with
    | t :: _ => some (x :: xs, t)
    | [] => search re total xs

/-- Go `(*Regexp).FindStringSubmatch`: the text of the leftmost match and of
each capturing group (the empty string for a group that did not take part);
the empty list when there is no match. -/
def FindStringSubmatch (re : Regex) (s : String) : List String :=
  match search re s.toList.length s.toList with
  | none => []
  | some (start, rest, caps) =>
    String.mk (start.take (start.length - rest.length)) ::
      caps.map (fun o => String.mk (o.getD []))

/-- The lexical elements of a pattern. -/
inductive Token where
  | lit (c : Char) : Token
  | cls (neg : Bool) (ranges : List (Char × Char)) : Token
  | dot : Token
  | bot : Token
  | eot : Token
  | rep (op : Char) (greedy : Bool) : Token
  | bar : Token
  | lparen (capturing : Bool) : Token
  | rparen : Token
  | foldOn : Token
  | invalid : Token
  | unsupported : Token
  deriving DecidableEq, Repr

/-- The Perl classes `\d`, `\w` and `\s`. -/
def perlClass (c : Char) : Option (List (Char × Char)) :=
  if c = 'd' then some [('0', '9')]
  else if c = 'w' then some [('0', '9'), ('A', 'Z'), ('_', '_'), ('a', 'z')]
  else if c = 's' then some [('\t', '\n'), (Char.ofNat 12, '\r'), (' ', ' ')]
  else none

/-- The character an escape `\c` stands for: an escaped ASCII punctuation
character is itself, and `\a \f \n \r \t \v` are control characters. -/
def escapeChar (c : Char) : Option Char :=
  let n := c.toNat
  if c = 'a' then some (Char.ofNat 7)
  else if c = 'f' then some (Char.ofNat 12)
  else if c = 'n' then some '\n'
  else if c = 'r' then some '\r'
  else if c = 't' then some '\t'
  else if c = 'v' then some (Char.ofNat 11)
  else if n < 128 ∧ c ≠ '_' ∧ ¬ (48 ≤ n ∧ n ≤ 57) ∧ ¬ (65 ≤ n ∧ n ≤ 90) ∧
      ¬ (97 ≤ n ∧ n ≤ 122) then some c
  else none

/-- One character of a bracket class, plain or escaped, and the input after
it; `none` when the escape is not modelled. -/
def classChar : List Char → Option (Char × List Char)
  | '\\' :: c :: rest => (escapeChar c).map (fun e => (e, rest))
  | '\\' :: [] => none
  | c :: rest => some (c, rest)
  | [] => none

/-- The items of a bracket class up to the closing `]` (Go `parseClass`): a
`]` that comes first is a member, `-` is a member unless it joins two
characters into a range. -/
def lexClass : Nat → Bool → Bool → List (Char × Char) → List Char → Token × List Char
  | 0, _, _, _, _ => (.unsupported, [])
  | _ + 1, _, _, _, [] => (.invalid, [])
  | fuel + 1, neg, first, acc, c :: t =>
    if c = ']' ∧ first = false then (.cls neg acc, t)
    else if c = '[' ∧ t.head? = some ':' then (.unsupported, [])
    else if c = '\\' ∧ t = [] then (.invalid, [])
    else if c = '\\' ∧ (t.head?.bind perlClass).isSome then
      lexClass fuel neg false (acc ++ ((t.head?.bind perlClass).getD [])) t.tail
    else
      match classChar (c :: t) with
      | none => (.unsupported, [])
      | some (lo, t1) =>
        match t1 with
        | '-' :: h :: t2 =>
          if h = ']' then lexClass fuel neg false (acc ++ [(lo, lo)]) t1
          else
            match classChar (h :: t2) with
            | none => (.unsupported, [])
            | some (hi, t3) =>
              if hi.toNat < lo.toNat then (.invalid, [])
              else lexClass fuel neg false (acc ++ [(lo, hi)]) t3
        | _ => lexClass fuel neg false (acc ++ [(lo, lo)]) t1

/-- The tokens of a pattern.  A construct outside the modelled fragment gives
`unsupported`, a pattern Go rejects gives `invalid`. -/
def lex : Nat → List Char → List Token
  | 0, _ => [.unsupported]
  | _ + 1, [] => []
  | fuel + 1, c :: t =>
    if c = '\\' then
      match t with
      | [] => [.invalid]
      | e :: t1 =>
        match perlClass e, perlClass e.toLower, escapeChar e with
        | some ranges, _, _ => .cls false ranges :: lex fuel t1
        | none, some ranges, _ => .cls true ranges :: lex fuel t1
        | none, none, some x => .lit x :: lex fuel t1
        | none, none, none => [.unsupported]
    else if c = '(' then
      match t with
      | '?' :: 'i' :: ')' :: t1 => .foldOn :: lex fuel t1
      | '?' :: ':' :: t1 => .lparen false :: lex fuel t1
      | '?' :: _ => [.unsupported]
      | _ => .lparen true :: lex fuel t
    else if c = ')' then .rparen :: lex fuel t
    else if c = '|' then .bar :: lex fuel t
    else if c = '.' then .dot :: lex fuel t
    else if c = '^' then .bot :: lex fuel t
    else if c = '$' then .eot :: lex fuel t
    else if c = '*' ∨ c = '+' ∨ c = '?' then
      match t with
      | '?' :: t1 => .rep c false :: lex fuel t1
      | _ => .rep c true :: lex fuel t
    else if c = '{' then [.unsupported]
    else if c = '[' then
      match t with
      | '^' :: t1 =>
        match lexClass fuel true true [] t1 with
        | (tok, t2) => tok :: lex fuel t2
      | _ =>
        match lexClass fuel false true [] t with
        | (tok, t2) => tok :: lex fuel t2
    else .lit c :: lex fuel t

/-- A group being parsed: the finished alternatives and the items of the
current one, both latest first, the case-folding flag and the capture index. -/
structure Frame where
  alts : List Regex
  items : List Regex
  fold : Bool
  index : Option Nat
  deriving DecidableEq, Repr

/-- The concatenation of items given latest first. -/
def mkConcat : List Regex → Regex
  | [] => .emptyMatch
  | r :: rs => rs.foldl (fun acc x => .concat x acc) r

/-- The alternation of alternatives given latest first. -/
def mkAlternate : List Regex → Regex
  | [] => .emptyMatch
  | r :: rs => rs.foldl (fun acc x => .alternate x acc) r

/-- The pattern of a finished group. -/
def closeFrame (f : Frame) : Regex :=
  let body := mkAlternate (mkConcat f.items :: f.alts)
  match f.index with
  | some i => .capture i body
  | none => body

/-- The outcome of compiling a pattern. -/
inductive Compiled where
  | ok (re : Regex) : Compiled
  | invalid : Compiled
  | unsupported : Compiled
  deriving DecidableEq, Repr

/-- The state of the parser: the open groups, innermost first, the number of
capturing groups opened, and whether the last token was a repetition. -/
structure ParseState where
  cur : Frame
  stack : List Frame
  ncap : Nat
  lastRep : Bool
  deriving DecidableEq, Repr

/-- Whether an item may stand under `(?i)` in this model: its characters are
ASCII. -/
def asciiRanges (ranges : List (Char × Char)) : Bool :=
  ranges.all (fun r => decide (r.1.toNat < 128 ∧ r.2.toNat < 128))

/-- Adds an item to the current alternative. -/
def pushItem (st : ParseState) (r : Regex) : ParseState :=
  { st with cur := { st.cur with items := r :: st.cur.items }, lastRep := false }

/-- The parser, a stack machine over the tokens (Go `syntax.Parse` with the
Perl flags). -/
def parseTokens : List Token → ParseState → Compiled
  | [], st =>
    match st.stack with
    | [] => .ok (closeFrame st.cur)
    | _ :: _ => .invalid
  | tok :: toks, st =>
    match tok with
    | .invalid => .invalid
    | .unsupported => .unsupported
    | .lit c =>
      if st.cur.fold ∧ 128 ≤ c.toNat then .unsupported
      else parseTokens toks (pushItem st (.literal c st.cur.fold))
    | .cls neg ranges =>
      if st.cur.fold ∧ asciiRanges ranges = false then .unsupported
      else parseTokens toks (pushItem st (.charClass neg ranges st.cur.fold))
    | .dot => parseTokens toks (pushItem st .anyCharNotNL)
    | .bot => parseTokens toks (pushItem st .beginText)
    | .eot => parseTokens toks (pushItem st .endText)
    | .rep op greedy =>
      if st.lastRep then .invalid
      else
        match st.cur.items with
        | [] => .invalid
        | r :: rs =>
          let r2 := if op = '*' then Regex.star r greedy
            else if op = '+' then Regex.plus r greedy else Regex.quest r greedy
          parseTokens toks
            { st with cur := { st.cur with items := r2 :: rs }, lastRep := true }
    | .bar =>
      parseTokens toks
        { st with
          cur := { st.cur with alts := mkConcat st.cur.items :: st.cur.alts, items := [] },
          lastRep := false }
    | .lparen capturing =>
      parseTokens toks
        { cur := { alts := [], items := [], fold := st.cur.fold,
                   index := if capturing then some (st.ncap + 1) else none },
          stack := st.cur :: st.stack,
          ncap := if capturing then st.ncap + 1 else st.ncap,
          lastRep := false }
    | .rparen =>
      match st.stack with
      | [] => .invalid
      | parent :: rest =>
        parseTokens toks
          { cur := { parent with items := closeFrame st.cur :: parent.items },
            stack := rest, ncap := st.ncap, lastRep := false }
    | .foldOn =>
      parseTokens toks { st with cur := { st.cur with fold := true }, lastRep := false }

/-- Go `regexp.Compile` on the modelled fragment. -/
def compile (pattern : String) : Compiled :=
  parseTokens (lex (pattern.toList.length + 1) pattern.toList)
    { cur := { alts := [], items := [], fold := false, index := none },
      stack := [], ncap := 0, lastRep := false }

/-! ## `internal/image/build.go` -/

/-- A Go `error`: its message. -/
abbrev Error := String

/-- The outcome of a call that compiles a pattern: it returns a value, it
panics (`regexp.MustCompile` on a pattern Go rejects), or the pattern is
outside the modelled fragment of `regexp`. -/
inductive Outcome (α : Type) where
  | ret (value : α) : Outcome α
  | panic : Outcome α
  | unmodelled : Outcome α
  deriving DecidableEq, Repr

/-- Type `git.Repository`, as far as `build.go` reads it: `CommitObject`, from
a commit hash to the commit message or an error. -/
structure Repository where
  CommitObject : String → Except Error String

/-- The function `git.Clone`, from the URL to the repository or nil, and the
error or nil. -/
abbrev Clone := String → Option Repository × Option Error

/-- A JSON value, the content of a Go `interface{}` decoded from JSON. -/
inductive Json where
  | null : Json
  | bool (b : Bool) : Json
  | num (n : Int) : Json
  | str (s : String) : Json
  | arr (items : List Json) : Json
  | obj (fields : List (String × Json)) : Json

/-- A Go `map[string]interface{}`. -/
abbrev JsonMap := List (String × Json)

/-- Type `invocation` of `build.go`. -/
structure invocation where
  ConfigSource : JsonMap
  Parameters : JsonMap
  Environment : JsonMap

/-- Type `predicate` of `build.go`. -/
structure predicate where
  Invocation : invocation
  BuildType : String
  Metadata : JsonMap
  Builder : JsonMap
  BuildConfig : JsonMap
  Materials : List JsonMap

/-- Type `attestation` of `build.go` (its field `Type` is `Type_` here). -/
structure attestation where
  Predicate : predicate
  PredicateType : String
  Subject : List JsonMap
  Type_ : String

/-- Type `repoSignoffSource`. -/
structure repoSignoffSource where
  source : Repository
  commit : String
  jiraMatch : String

/-- Type `jiraSignoffSource`. -/
structure jiraSignoffSource where
  source : String
  jiraid : String

/-- The interface `buildSigner` with its two implementations. -/
inductive buildSigner where
  | repo (b : repoSignoffSource) : buildSigner
  | jira (j : jiraSignoffSource) : buildSigner

/-- The pattern that `BuildSignoffSource` configures (line 66). -/
def defaultJiraMatch : String := "(?i)RedHat JIRA Issue: ([a-zA-Z]+-\\d+)"

/-- The method `getBuildCommitSha`. -/
def attestation.getBuildCommitSha (_a : attestation) : String :=
  "4be9282d0c47ff3046fd56c8067e6f0e83822a77"

/-- The method `getBuildSCM`. -/
def attestation.getBuildSCM (_a : attestation) : String :=
  "https://github.com/joejstuart/ec-policies.git"

/-- The method `getRepository`. -/
def attestation.getRepository (clone : Clone) (a : attestation) :
    Option Repository × Option Error :=
  clone a.getBuildSCM

/-- The method `getBuildCommitMessage`; `none` is the nil dereference of a
clone that returns neither a repository nor an error. -/
def attestation.getBuildCommitMessage (clone : Clone) (a : attestation) :
    Option (String × Option Error) :=
  match a.getRepository clone with
  | (_, some err) => some ("", some err)
  | (none, none) => none
  | (some repo, none) =>
    match repo.CommitObject a.getBuildCommitSha with
    | .error err => some ("", some err)
    | .ok message => some (message, none)

/-- The method `BuildSignoffSource`; `none` is a panic. -/
def attestation.BuildSignoffSource (clone : Clone) (a : attestation) :
    Option (Option buildSigner × Option Error) :=
  match a.getRepository clone with
  | (_, some err) => some (none, some err)
  | (some repo, none) =>
    match a.getBuildCommitMessage clone with
    | none => none
    | some (_, some err) => some (none, some err)
    | some (commit, none) =>
      some (some (.repo { source := repo, commit := commit, jiraMatch := defaultJiraMatch }),
        none)
  | (none, none) => some (none, none)

/-- The method `(*repoSignoffSource).GetBuildSignOff`: the result string and
the error or nil. -/
def repoSignoffSource.GetBuildSignOff (b : repoSignoffSource) :
    Outcome (String × Option Error) :=
  match compile b.jiraMatch with
  | .invalid => .panic
  | .unsupported => .unmodelled
  | .ok re =>
    let jiras : List String := []
    let found := FindStringSubmatch re b.commit
    if found.length < 1 then
      .ret ("", some "there were no jira references found.")
    else
      let jiras := jiras ++ [found.getD (found.length - 1) ""]
      .ret (String.intercalate "," jiras, none)

/-- The statements of `(*repoSignoffSource).GetBuildSignOff` that follow the
call of `FindStringSubmatch` (lines 105 to 111), on the slice `found` that the
call returned, whatever the pattern is. -/
def signOffOfMatch (found : List String) : String × Option Error :=
  let jiras : List String := []
  if found.length < 1 then
    ("", some "there were no jira references found.")
  else
    let jiras := jiras ++ [found.getD (found.length - 1) ""]
    (String.intercalate "," jiras, none)

/-- The method `(*jiraSignoffSource).GetBuildSignOff`. -/
def jiraSignoffSource.GetBuildSignOff (j : jiraSignoffSource) : String × Option Error :=
  (j.jiraid, none)

/-- Equality of two texts up to letter case: they are equal once every
character is lower-cased. -/
def eqUpToCase (s t : String) : Prop :=
  s.toList.map Char.toLower = t.toList.map Char.toLower

instance (s t : String) : Decidable (eqUpToCase s t) :=
  inferInstanceAs (Decidable (s.toList.map Char.toLower = t.toList.map Char.toLower))

/-! ## `cmd/sign_off.go` and `cmd/signOff.go` -/

/-- What `signoffSource.GetSignOff()` gives (`sign_off.go`, line 101): the
sign-off or nil, and the error or nil. -/
structure SignOffSource (σ : Type) where
  GetSignOff : Option σ × Option Error

/-- An attestation of a validated image, as `validate` reads it: what
`att.NewSignOffSource()` gives (line 93), the source or nil and the error or
nil. -/
structure SignOffAttestation (σ : Type) where
  NewSignOffSource : Option (SignOffSource σ) × Option Error

/-- The collaborators of `validate`: `image.NewImageValidator` followed by
`ValidateImage`, from the image reference and the public key to the
attestations of the validated image or an error, and `json.Marshal` on a
sign-off. -/
structure SignOffEnv (σ : Type) where
  ValidateImage : String → String → Except Error (List (SignOffAttestation σ))
  Marshal : σ → Except Error String

/-- The body of the loop of `validate` (`sign_off.go`, lines 93-112) for one
attestation: the error it returns with, or the line it prints, if any. -/
def validateStep {σ : Type} (marshal : σ → Except Error String)
    (att : SignOffAttestation σ) : Except Error (Option String) :=
  match att.NewSignOffSource with
  | (_, some err) => .error err
  | (none, none) => .error "there is no signoff source in attestation"
  | (some signoffSource, none) =>
    match signoffSource.GetSignOff with
    | (_, some err) => .error err
    | (none, none) => .ok none
    | (some signOff, none) =>
      match marshal signOff with
      | .error err => .error err
      | .ok payload => .ok (some payload)

/-- The loop of `validate` (lines 92-114) from a given attestation on: the
lines printed, those printed before included, and the error returned or
nil. -/
def validateLoop {σ : Type} (marshal : σ → Except Error String) :
    List (SignOffAttestation σ) → List String → List String × Option Error
  | [], out => (out, none)
  | att :: rest, out =>
    match validateStep marshal att with
    | .error err => (out, some err)
    | .ok none => validateLoop marshal rest out
    | .ok (some payload) => validateLoop marshal rest (out ++ [payload])

/-- The function `validate` of `sign_off.go`: the lines printed and the error
returned or nil. -/
def validate {σ : Type} (env : SignOffEnv σ) (imageRef publicKey : String) :
    List String × Option Error :=
  match env.ValidateImage imageRef publicKey with
  | .error err => ([], some err)
  | .ok attestations => validateLoop env.Marshal attestations []

/-- The `RunE` of the `sign-off` command (`sign_off.go`, lines 61-70) over the
container images of the components: the lines printed, the errors logged, and
the error returned, which is nil. -/
def signOffRunE {σ : Type} (env : SignOffEnv σ) (publicKey : String) :
    List String → List String × List Error × Option Error
  | [] => ([], [], none)
  | containerImage :: rest =>
    let r := validate env containerImage publicKey
    let s := signOffRunE env publicKey rest
    match r.2 with
    | some err => (r.1 ++ s.1, err :: s.2.1, s.2.2)
    | none => (r.1 ++ s.1, s.2.1, s.2.2)

/-- The loop of the `RunE` of `signOff.go` (lines 55-62) over the attestations
of the validated image: the sign-offs printed and the error returned or nil;
`panic` is the call of `GetBuildSignOff` on a nil source. -/
def signOffLoop (clone : Clone) : List attestation → List String →
    Outcome (List String × Option Error)
  | [], out => .ret (out, none)
  | att :: rest, out =>
    match att.BuildSignoffSource clone with
    | none => .panic
    | some (_, some err) => .ret (out, some err)
    | some (none, none) => .panic
    | some (some (.jira j), none) => signOffLoop clone rest (out ++ [j.GetBuildSignOff.1])
    | some (some (.repo b), none) =>
      match b.GetBuildSignOff with
      | .ret (signOff, _) => signOffLoop clone rest (out ++ [signOff])
      | .panic => .panic
      | .unmodelled => .unmodelled

/-! ## `internal/applicationsnapshot/attestation.go` -/

/-- The interface `AttestationResult`, as the report reads it: the bytes
that `Statement()` returns. -/
structure AttestationResult where
  Statement : List UInt8
  deriving DecidableEq, Repr

/-- Type `Component`, restricted to its attestations. -/
structure Component where
  Attestations : List AttestationResult
  deriving DecidableEq, Repr

/-- Type `Report`, restricted to its components. -/
structure Report where
  Components : List Component
  deriving DecidableEq, Repr

/-- Go `bytes.Join`: the elements with `sep` between consecutive ones. -/
def bytesJoin (s : List (List UInt8)) (sep : List UInt8) : List UInt8 :=
  match s with
  | [] => []
  | [a] => [] ++ a
  | a :: rest => rest.foldl (fun b v => b ++ sep ++ v) a

/-- The statements that the two loops of the report visit, in order: by
component, then by attestation (lines 29-33 and 40-49). -/
def Report.statementBytes (r : Report) : List (List UInt8) :=
  r.Components.foldl (fun byts c => c.Attestations.foldl (fun byts a => byts ++ [a.Statement]) byts) []

/-- The method `(*Report).renderAttestations`. -/
def Report.renderAttestations (r : Report) : List UInt8 × Option Error :=
  (bytesJoin r.statementBytes [10], none)

/-- The loop of `(*Report).attestations` over the attestations of one
component; `none` is the early return of line 45. -/
def attestationsOfComponent {τ : Type} (unmarshal : List UInt8 → Except Error τ) :
    List AttestationResult → List τ → Option (List τ)
  | [], statements => some statements
  | a :: rest, statements =>
    match unmarshal a.Statement with
    | .error _ => none
    | .ok statement => attestationsOfComponent unmarshal rest (statements ++ [statement])

/-- The loop of `(*Report).attestations` over the components. -/
def attestationsOfComponents {τ : Type} (unmarshal : List UInt8 → Except Error τ) :
    List Component → List τ → Option (List τ)
  | [], statements => some statements
  | c :: rest, statements =>
    match attestationsOfComponent unmarshal c.Attestations statements with
    | none => none
    | some statements2 => attestationsOfComponents unmarshal rest statements2

/-- The method `(*Report).attestations`, with `json.Unmarshal` into an
`in_toto.Statement` as a parameter: the statements and the error or nil. -/
def Report.attestations {τ : Type} (unmarshal : List UInt8 → Except Error τ) (r : Report) :
    List τ × Option Error :=
  match attestationsOfComponents unmarshal r.Components [] with
  | none => ([], none)
  | some statements => (statements, none)

/-- The line-delimited rendering in the specification's words: every record
but the last is followed by one newline byte, the last by nothing. -/
def lineDelimited : List (List UInt8) → List UInt8
  | [] => []
  | [a] => a
  | a :: b :: rest => a ++ 10 :: lineDelimited (b :: rest)

/-- The statements of a report, ordered by component and then by attestation
within the component. -/
def Report.statementsInOrder (r : Report) : List (List UInt8) :=
  r.Components.flatMap (fun c => c.Attestations.map (fun a => a.Statement))

/-- The line that the loop of `validate` prints for an attestation, if it
prints one. -/
def emittedLine {σ : Type} (marshal : σ → Except Error String)
    (att : SignOffAttestation σ) : Option String :=
  match validateStep marshal att with
  | .ok (some payload) => some payload
  | _ => none

/-- The text of the match that a search found. -/
def matchText (found : List Char × Thread) : String :=
  String.mk (found.1.take (found.1.length - found.2.1.length))

/-- The text that a search captured for the group of a given number, empty
for a group that did not take part. -/
def groupText (found : List Char × Thread) (index : Nat) : String :=
  String.mk ((found.2.2.getD (index - 1) none).getD [])

/-- The pattern has no match in the text: at no position of the text does a
match start. -/
def noMatch (re : Regex) (s : String) : Prop :=
  ∀ t : List Char, t <:+ s.toList →
    run s.toList.length re t (List.replicate (numSubexp re) none) = []

/-! ## `internal/attestation`: `SLSAProvenanceFromSignature`

The function is not among the sources; its test `slsa_provenance_02_test.go`
is.  It is modelled from section 4.2 of the specification, and where a test
case fixes an outcome the model gives that outcome. -/

/-- An error of the catalog (`pkg/error`): its code and the cause attached
with `CausedBy`. -/
structure CatalogError where
  code : String
  cause : Option String
  deriving DecidableEq, Repr

/-- The method `CausedByF`: the error with the given cause. -/
def CatalogError.CausedByF (e : CatalogError) (cause : String) : CatalogError :=
  { e with cause := some cause }

/-- The error `AT001`, InputMissing. -/
def AT001 : CatalogError := { code := "AT001", cause := none }

/-- The error `AT002`, for an unreadable or mismatching media type and for an
unreadable or malformed payload. -/
def AT002 : CatalogError := { code := "AT002", cause := none }

/-- The error `AT003`, EmptyPredicate. -/
def AT003 : CatalogError := { code := "AT003", cause := none }

/-- The error `AT004`, UnexpectedPredicateType. -/
def AT004 : CatalogError := { code := "AT004", cause := none }

/-- The error `AT005`, SignerResolutionFailed. -/
def AT005 : CatalogError := { code := "AT005", cause := none }

/-- The canonical signed-envelope media type (`DssePayloadType`). -/
def DssePayloadType : String := "application/vnd.dsse.envelope.v1+json"

/-- The expected provenance identifier. -/
def PredicateSLSAProvenance : String := "https://slsa.dev/provenance/v0.2"

/-- One declared signature of an envelope, `keyid` and `sig`. -/
structure DeclaredSignature where
  keyid : String
  sig : String
  deriving DecidableEq, Repr

/-- The decoded envelope: the base64 payload and the declared signatures. -/
structure SignedEnvelope where
  payload : String
  signatures : List DeclaredSignature
  deriving DecidableEq, Repr

/-- The decoded payload: `_type`, `predicateType`, `subject`, `predicate`. -/
structure StatementFields where
  type_ : String
  predicateType : String
  subject : List JsonMap
  predicate : JsonMap

/-- Type ProvenanceStatement of the specification. -/
structure ProvenanceStatement where
  fields : StatementFields
  rawPayload : List UInt8

/-- An X.509 certificate, as its encoded bytes. -/
structure Certificate where
  raw : List UInt8
  deriving DecidableEq, Repr

/-- Type ResolvedSigner of the specification: a signature-derived or a
certificate-chain-derived identity. -/
inductive ResolvedSigner where
  | signature (sig : String) (declared : List DeclaredSignature) : ResolvedSigner
  | certificate (cert : Certificate) (chain : List Certificate) : ResolvedSigner
  deriving DecidableEq, Repr

/-- Type ProvenanceRecord of the specification. -/
structure ProvenanceRecord where
  statement : ProvenanceStatement
  signer : ResolvedSigner

/-- The accessors of an envelope source. -/
inductive Accessor where
  | MediaType : Accessor
  | Uncompressed : Accessor
  | Base64Signature : Accessor
  | Cert : Accessor
  | Chain : Accessor
  deriving DecidableEq, Repr

/-- The interface EnvelopeSource (`oci.Signature`): what each accessor
returns, a value or an error; `Uncompressed` is the payload stream read to its
end. -/
structure EnvelopeSource where
  MediaType : Except Error String
  Uncompressed : Except Error (List UInt8)
  Base64Signature : Except Error String
  Cert : Except Error Certificate
  Chain : Except Error (List Certificate)

/-- The decoders the extractor uses: `json.Unmarshal` of the envelope, base64
decoding of its payload, `json.Unmarshal` of the statement. -/
structure Codec where
  decodeEnvelope : List UInt8 → Except Error SignedEnvelope
  decodeBase64 : String → Except Error (List UInt8)
  decodeStatement : List UInt8 → Except Error StatementFields

/-- What a call of the extractor gives: the record or nil, the error or nil,
and the accessors it consulted, in order. -/
structure ExtractResult where
  record : Option ProvenanceRecord
  err : Option CatalogError
  calls : List Accessor

/-- Modelled from the spec: the message of a media type mismatch, which
"states expected vs. actual"; its wording is that of the test cases `no media
type` and `unsupported media type`. -/
def mediaTypeMessage (typ : String) : String :=
  "Expecting media type of `" ++ DssePayloadType ++ "`, received: `" ++ typ ++ "`"

/-- Modelled from the spec: a payload that "decodes but yields no recognizable
content", every field of the statement being empty. -/
def noRecognizableContent (st : StatementFields) : Bool :=
  st.type_ == "" && st.predicateType == "" && st.subject.isEmpty && st.predicate.isEmpty

/-- Modelled from the spec: step 5 of section 4.2, the signer of an envelope,
missing from the sources.  A non-empty direct signature gives the signature
variant, paired with the declared signatures, and the certificate accessors
are not consulted; an empty one falls back to the certificate and the chain,
the failure of either being `AT005`.  A failing direct accessor is `AT005`
caused by its error, as the test case `cannot create entity signature`
requires. -/
def resolveSigner (sig : EnvelopeSource) (declared : List DeclaredSignature) :
    Except CatalogError ResolvedSigner × List Accessor :=
  match sig.Base64Signature with
  | .error err => (.error (AT005.CausedByF err), [.Base64Signature])
  | .ok direct =>
    if direct ≠ "" then (.ok (.signature direct declared), [.Base64Signature])
    else
      match sig.Cert with
      | .error err => (.error (AT005.CausedByF err), [.Base64Signature, .Cert])
      | .ok cert =>
        match sig.Chain with
        | .error err => (.error (AT005.CausedByF err), [.Base64Signature, .Cert, .Chain])
        | .ok chain => (.ok (.certificate cert chain), [.Base64Signature, .Cert, .Chain])

/-- Modelled from the spec: steps 2 to 4 of section 4.2 on the payload bytes,
missing from the sources: the decoded envelope and statement, or the error of
the first step that fails. -/
def decodeProvenance (codec : Codec) (bytes : List UInt8) :
    Except CatalogError (SignedEnvelope × ProvenanceStatement) :=
  match codec.decodeEnvelope bytes with
  | .error err => .error (AT002.CausedByF err)
  | .ok envelope =>
    match codec.decodeBase64 envelope.payload with
    | .error err => .error (AT002.CausedByF err)
    | .ok raw =>
      match codec.decodeStatement raw with
      | .error err => .error (AT002.CausedByF err)
      | .ok st =>
        if noRecognizableContent st then .error (AT003.CausedByF "")
        else if st.predicateType ≠ PredicateSLSAProvenance then
          .error (AT004.CausedByF st.predicateType)
        else .ok (envelope, { fields := st, rawPayload := raw })

/-- Modelled from the spec: the function `SLSAProvenanceFromSignature` of
`internal/attestation`, missing from the sources, after the pipeline of
section 4.2; `none` is the nil source. -/
def SLSAProvenanceFromSignature (codec : Codec) (sig : Option EnvelopeSource) :
    ExtractResult :=
  match sig with
  | none => { record := none, err := some AT001, calls := [] }
  | some s =>
    match s.MediaType with
    | .error err => { record := none, err := some (AT002.CausedByF err), calls := [.MediaType] }
    | .ok typ =>
      if typ ≠ DssePayloadType then
        { record := none, err := some (AT002.CausedByF (mediaTypeMessage typ)),
          calls := [.MediaType] }
      else
        match s.Uncompressed with
        | .error err =>
          { record := none, err := some (AT002.CausedByF err),
            calls := [.MediaType, .Uncompressed] }
        | .ok bytes =>
          match decodeProvenance codec bytes with
          | .error e => { record := none, err := some e, calls := [.MediaType, .Uncompressed] }
          | .ok (envelope, statement) =>
            match resolveSigner s envelope.signatures with
            | (.error e, calls) =>
              { record := none, err := some e, calls := [.MediaType, .Uncompressed] ++ calls }
            | (.ok signer, calls) =>
              { record := some { statement := statement, signer := signer }, err := none,
                calls := [.MediaType, .Uncompressed] ++ calls }

/-- An attestation that records, as its one material, a build from the
given commit of the given repository. -/
def attestationOfCommit (uri sha : String) : attestation :=
  { Predicate :=
      { Invocation := { ConfigSource := [], Parameters := [], Environment := [] },
        BuildType := "tekton.dev/v1beta1/TaskRun", Metadata := [], Builder := [],
        BuildConfig := [],
        Materials := [[("uri", .str uri), ("digest", .obj [("sha1", .str sha)])]] },
    PredicateType := "https://slsa.dev/provenance/v0.2",
    Subject := [],
    Type_ := "https://in-toto.io/Statement/v0.1" }

/-- Decoders that give the same envelope, payload and statement for every
input: a stand-in for the decoders at one envelope. -/
def fixedCodec (envelope : SignedEnvelope) (raw : List UInt8) (st : StatementFields) :
    Codec :=
  { decodeEnvelope := fun _ => .ok envelope,
    decodeBase64 := fun _ => .ok raw,
    decodeStatement := fun _ => .ok st }

/-- The statement of the valid test cases: the in-toto type, the expected
predicate type and a predicate with a build type. -/
def validStatement : StatementFields :=
  { type_ := "https://in-toto.io/Statement/v0.1",
    predicateType := "https://slsa.dev/provenance/v0.2",
    subject := [],
    predicate := [("buildType", .str "https://my.build.type")] }

/-! ## The resolution rules in the specification's words -/

/-- A rule is active when `effectiveFrom ≤ now ≤ effectiveUntil`, a bound that
is missing or does not parse being replaced by `now`, and its `imageRef` is
unset or equals the artifact. -/
def specActive (now : Time) (artifact : String) (c : VolatileCriteria) : Bool :=
  decide ((parseRFC3339 c.EffectiveOn).getD now ≤ now ∧
      now ≤ (parseRFC3339 c.EffectiveUntil).getD now) &&
    (c.ImageRef == "" || c.ImageRef == artifact)

/-- The static include list of a source (empty when there is no static
configuration). -/
def staticInclude (src : Source) : List String :=
  match src.Config with
  | some sc => sc.Include
  | none => []

/-- The static exclude list of a source. -/
def staticExclude (src : Source) : List String :=
  match src.Config with
  | some sc => sc.Exclude
  | none => []

/-- The volatile include rules of a source. -/
def volatileInclude (src : Source) : List VolatileCriteria :=
  match src.VolatileConfig with
  | some vc => vc.Include
  | none => []

/-- The volatile exclude rules of a source. -/
def volatileExclude (src : Source) : List VolatileCriteria :=
  match src.VolatileConfig with
  | some vc => vc.Exclude
  | none => []

/-- The values of the active rules of a list, in source order. -/
def activeValues (now : Time) (artifact : String) (rules : List VolatileCriteria) :
    List String :=
  (rules.filter (specActive now artifact)).map (fun c => c.Value)

/-- The list `I`: the static include list followed by the values of the active
volatile include rules. -/
def specInclude (src : Source) (now : Time) (artifact : String) : List String :=
  staticInclude src ++ activeValues now artifact (volatileInclude src)

/-- The list `E`: the static exclude list followed by the values of the active
volatile exclude rules. -/
def specExclude (src : Source) (now : Time) (artifact : String) : List String :=
  staticExclude src ++ activeValues now artifact (volatileExclude src)

/-- The legacy include entries: the legacy include list followed by one
`"@" ++ c` per legacy collection `c`. -/
def legacyInclude (pc : EnterpriseContractPolicyConfiguration) : List String :=
  pc.Include ++ pc.Collections.map (fun c => "@" ++ c)

/-- A bound that does not parse, made a missing (empty) bound. -/
def blankBound (bound : String) : String :=
  if parseRFC3339 bound = none then "" else bound

/-- A rule with each unparsable bound made a missing bound. -/
def blankRule (c : VolatileCriteria) : VolatileCriteria :=
  { c with EffectiveOn := blankBound c.EffectiveOn,
           EffectiveUntil := blankBound c.EffectiveUntil }

/-- A source with each unparsable bound of its volatile rules made a missing
bound. -/
def blankSource (src : Source) : Source :=
  { src with VolatileConfig := src.VolatileConfig.map (fun vc =>
      { Include := vc.Include.map blankRule, Exclude := vc.Exclude.map blankRule }) }

/-! ## Lemmas on `filter` and `computeIncludeExclude` -/

theorem parseBound_fst (atTime : Time) (value bound : String) (log : List Warning) :
    (parseBound atTime value bound log).1 = (parseRFC3339 bound).getD atTime := by
  unfold parseBound
  cases parseRFC3339 bound <;> rfl

theorem filterStep_fst (atTime : Time) (image : String)
    (st : List String × List Warning) (c : VolatileCriteria) :
    (filterStep atTime image st c).1 =
      if specActive atTime image c then st.1 ++ [c.Value] else st.1 := by
  have h1 := parseBound_fst atTime c.Value c.EffectiveOn st.2
  have h2 := parseBound_fst atTime c.Value c.EffectiveUntil
    (parseBound atTime c.Value c.EffectiveOn st.2).2
  unfold filterStep specActive
  simp only [← h1, ← h2]
  by_cases hw : (parseBound atTime c.Value c.EffectiveUntil
      (parseBound atTime c.Value c.EffectiveOn st.2).2).1 ≥ atTime ∧
      (parseBound atTime c.Value c.EffectiveOn st.2).1 ≤ atTime
  · by_cases he : c.ImageRef = ""
    · simp [hw.1, hw.2, he, ge_iff_le.mp hw.1]
    · by_cases hi : c.ImageRef = image
      · have hne : ¬ image = "" := fun h => he (hi.trans h)
        simp [hw.1, hw.2, hi, hne, ge_iff_le.mp hw.1]
      · simp [hw.1, hw.2, he, hi, ge_iff_le.mp hw.1]
  · have hw2 : ¬ ((parseBound atTime c.Value c.EffectiveOn st.2).1 ≤ atTime ∧
        atTime ≤ (parseBound atTime c.Value c.EffectiveUntil
          (parseBound atTime c.Value c.EffectiveOn st.2).2).1) :=
      fun h => hw ⟨h.2, h.1⟩
    simp [hw, hw2]

theorem filter_fst (atTime : Time) (image : String) (criteria : List VolatileCriteria) :
    ∀ (items : List String) (log : List Warning),
      (filter atTime image items log criteria).1 =
        items ++ activeValues atTime image criteria := by
  induction criteria with
  | nil => intro items log; simp [filter, activeValues]
  | cons c cs ih =>
    intro items log
    have hstep := filterStep_fst atTime image (items, log) c
    have ih2 := ih (filterStep atTime image (items, log) c).1
      (filterStep atTime image (items, log) c).2
    simp only [filter, List.foldl_cons] at ih2 ⊢
    rw [ih2, hstep]
    by_cases ha : specActive atTime image c = true
    · simp [activeValues, List.filter_cons, ha]
    · simp [activeValues, List.filter_cons, ha]

/-- The include and exclude lists after the static and the volatile step
(lines 25-69) are the lists `I` and `E`; the legacy step and the wildcard
default follow. -/
theorem computeIncludeExclude_eq (src : Source) (p : ConfigProvider) (image : String) :
    (computeIncludeExclude src p image).1 =
        (let i2 := match p.Spec.Configuration with
            | some pc =>
              if specInclude src p.EffectiveTime image = [] ∧
                  specExclude src p.EffectiveTime image = [] then legacyInclude pc
              else specInclude src p.EffectiveTime image
            | none => specInclude src p.EffectiveTime image
         if i2 = [] then ["*"] else i2) ∧
      (computeIncludeExclude src p image).2.1 =
        (match p.Spec.Configuration with
          | some pc =>
            if specInclude src p.EffectiveTime image = [] ∧
                specExclude src p.EffectiveTime image = [] then pc.Exclude
            else specExclude src p.EffectiveTime image
          | none => specExclude src p.EffectiveTime image) := by
  obtain ⟨cfg, vcfg⟩ := src
  obtain ⟨now, ⟨pcfg⟩⟩ := p
  have hnil : activeValues now image [] = [] := rfl
  rcases vcfg with _ | vc
  · rcases cfg with _ | ⟨_ | ⟨i, si⟩, _ | ⟨e, se⟩⟩ <;> rcases pcfg with _ | pc <;>
      simp [computeIncludeExclude, specInclude, specExclude, staticInclude, staticExclude,
        volatileInclude, volatileExclude, hnil, legacyInclude]
  · generalize hai : activeValues now image vc.Include = ai
    generalize hae : activeValues now image vc.Exclude = ae
    rcases cfg with _ | ⟨_ | ⟨i, si⟩, _ | ⟨e, se⟩⟩ <;> rcases pcfg with _ | pc <;>
      rcases ai with _ | ⟨a, ai⟩ <;> rcases ae with _ | ⟨b, ae⟩ <;>
      simp [computeIncludeExclude, specInclude, specExclude, staticInclude, staticExclude,
        volatileInclude, volatileExclude, hai, hae, legacyInclude, filter_fst]

theorem specActive_of_imageRef_ne (now : Time) (image : String) (c : VolatileCriteria)
    (hne : c.ImageRef ≠ "") (hneq : c.ImageRef ≠ image) :
    specActive now image c = false := by
  simp [specActive, hne, hneq]

theorem activeValues_append (now : Time) (image : String) (l1 l2 : List VolatileCriteria) :
    activeValues now image (l1 ++ l2) =
      activeValues now image l1 ++ activeValues now image l2 := by
  simp [activeValues]

theorem activeValues_cons (now : Time) (image : String) (c : VolatileCriteria)
    (l : List VolatileCriteria) :
    activeValues now image (c :: l) =
      (if specActive now image c then [c.Value] else []) ++ activeValues now image l := by
  by_cases h : specActive now image c = true <;> simp [activeValues, List.filter_cons, h]

theorem mem_activeValues (now : Time) (image : String) (c : VolatileCriteria)
    (l : List VolatileCriteria) (hc : c ∈ l) (ha : specActive now image c = true) :
    c.Value ∈ activeValues now image l := by
  unfold activeValues
  exact List.mem_map.mpr ⟨c, List.mem_filter.mpr ⟨hc, ha⟩, rfl⟩

theorem parseRFC3339_empty : parseRFC3339 "" = none := by decide

theorem parseRFC3339_blankBound (bound : String) :
    parseRFC3339 (blankBound bound) = parseRFC3339 bound := by
  unfold blankBound
  by_cases h : parseRFC3339 bound = none
  · simp [h, parseRFC3339_empty]
  · simp [h]

theorem specActive_blankRule (now : Time) (image : String) (c : VolatileCriteria) :
    specActive now image (blankRule c) = specActive now image c := by
  simp [specActive, blankRule, parseRFC3339_blankBound]

theorem activeValues_blankRule (now : Time) (image : String) (l : List VolatileCriteria) :
    activeValues now image (l.map blankRule) = activeValues now image l := by
  induction l with
  | nil => rfl
  | cons c cs ih =>
    rw [List.map_cons, activeValues_cons, activeValues_cons, ih, specActive_blankRule]
    rfl

/-- The criteria are a function of the lists `I` and `E` and of the legacy
configuration. -/
theorem computeIncludeExclude_congr (src src2 : Source) (p : ConfigProvider)
    (image : String)
    (hI : specInclude src p.EffectiveTime image = specInclude src2 p.EffectiveTime image)
    (hE : specExclude src p.EffectiveTime image = specExclude src2 p.EffectiveTime image) :
    (computeIncludeExclude src p image).1 = (computeIncludeExclude src2 p image).1 ∧
      (computeIncludeExclude src p image).2.1 = (computeIncludeExclude src2 p image).2.1 := by
  have h1 := computeIncludeExclude_eq src p image
  have h2 := computeIncludeExclude_eq src2 p image
  rw [hI, hE] at h1
  exact ⟨h1.1.trans h2.1.symm, h1.2.trans h2.2.symm⟩

/-- The loop body appends the value of a rule exactly when the rule is
active. -/
theorem filter_singleton_iff (now : Time) (image : String) (items : List String)
    (log : List Warning) (c : VolatileCriteria) :
    ((filter now image items log [c]).1 = items ++ [c.Value] ↔
        specActive now image c = true) ∧
      (specActive now image c = false → (filter now image items log [c]).1 = items) := by
  rw [filter_fst, activeValues_cons]
  by_cases h : specActive now image c = true
  · simp [h, activeValues]
  · simp [h, activeValues]

/-- When `I` or `E` is non-empty the legacy step is skipped. -/
theorem computeIncludeExclude_of_nonempty (src : Source) (p : ConfigProvider)
    (image : String)
    (h : specInclude src p.EffectiveTime image ≠ [] ∨
      specExclude src p.EffectiveTime image ≠ []) :
    (computeIncludeExclude src p image).2.1 = specExclude src p.EffectiveTime image ∧
      (computeIncludeExclude src p image).1 =
        (if specInclude src p.EffectiveTime image = [] then ["*"]
         else specInclude src p.EffectiveTime image) := by
  have hne : ¬ (specInclude src p.EffectiveTime image = [] ∧
      specExclude src p.EffectiveTime image = []) := by
    intro hc
    rcases h with h | h
    · exact h hc.1
    · exact h hc.2
  obtain ⟨h1, h2⟩ := computeIncludeExclude_eq src p image
  constructor
  · rw [h2]
    cases p.Spec.Configuration <;> simp [hne]
  · rw [h1]
    cases p.Spec.Configuration <;> simp [hne]

/-- Removing a rule that is not active changes neither list. -/
theorem computeIncludeExclude_remove_inactive (src : Source) (p : ConfigProvider)
    (image : String) (vc : VolatileSourceConfig) (c : VolatileCriteria)
    (l1 l2 : List VolatileCriteria) (hvc : src.VolatileConfig = some vc)
    (hc : specActive p.EffectiveTime image c = false) :
    (vc.Include = l1 ++ c :: l2 →
        NewCriteria src p image =
          NewCriteria { src with VolatileConfig := some { vc with Include := l1 ++ l2 } }
            p image) ∧
      (vc.Exclude = l1 ++ c :: l2 →
        NewCriteria src p image =
          NewCriteria { src with VolatileConfig := some { vc with Exclude := l1 ++ l2 } }
            p image) := by
  have key : ∀ l : List VolatileCriteria, l = l1 ++ c :: l2 →
      activeValues p.EffectiveTime image l = activeValues p.EffectiveTime image (l1 ++ l2) := by
    intro l hl
    rw [hl, activeValues_append, activeValues_cons, activeValues_append, hc]
    rfl
  constructor
  · intro hl
    have h := computeIncludeExclude_congr src
      { src with VolatileConfig := some { vc with Include := l1 ++ l2 } } p image
      (by simp [specInclude, staticInclude, volatileInclude, hvc, key _ hl])
      (by simp [specExclude, staticExclude, volatileExclude, hvc])
    simp only [NewCriteria, h.1, h.2]
  · intro hl
    have h := computeIncludeExclude_congr src
      { src with VolatileConfig := some { vc with Exclude := l1 ++ l2 } } p image
      (by simp [specInclude, staticInclude, volatileInclude, hvc])
      (by simp [specExclude, staticExclude, volatileExclude, hvc, key _ hl])
    simp only [NewCriteria, h.1, h.2]

/-- The activation test of a rule whose `imageRef` is empty or equal to the
artifact is the window test, with `now` for each bound that does not parse. -/
theorem specActive_of_imageRef (now : Time) (image : String) (c : VolatileCriteria)
    (hi : c.ImageRef = "" ∨ c.ImageRef = image) :
    (specActive now image c = true ↔
      (parseRFC3339 c.EffectiveOn).getD now ≤ now ∧
        now ≤ (parseRFC3339 c.EffectiveUntil).getD now) := by
  rcases hi with hi | hi <;> simp [specActive, hi]

/-- Replacing each unparsable bound by a missing bound changes neither list. -/
theorem NewCriteria_blankSource (src : Source) (p : ConfigProvider) (image : String) :
    NewCriteria (blankSource src) p image = NewCriteria src p image := by
  have h := computeIncludeExclude_congr (blankSource src) src p image
    (by
      obtain ⟨cfg, vcfg⟩ := src
      cases vcfg <;>
        simp [specInclude, staticInclude, volatileInclude, blankSource, activeValues_blankRule])
    (by
      obtain ⟨cfg, vcfg⟩ := src
      cases vcfg <;>
        simp [specExclude, staticExclude, volatileExclude, blankSource, activeValues_blankRule])
  simp only [NewCriteria, h.1, h.2]

/-! ## The criteria resolver: claims -/

/-- C1: with `I` the static include list followed by the values of the active
volatile include rules in source order, and `E` the same for the exclude lists,
whenever `I` or `E` is non-empty `computeIncludeExclude` returns exclude `= E`
and include `= I`, or `["*"]` when `I` is empty; as equalities of lists, no
element is dropped, merged or moved. -/
theorem C1_computeIncludeExclude_static_then_active (src : Source) (p : ConfigProvider)
    (image : String)
    (h : specInclude src p.EffectiveTime image ≠ [] ∨
      specExclude src p.EffectiveTime image ≠ []) :
    (computeIncludeExclude src p image).2.1 = specExclude src p.EffectiveTime image ∧
      (computeIncludeExclude src p image).1 =
        (if specInclude src p.EffectiveTime image = [] then ["*"]
         else specInclude src p.EffectiveTime image) :=
  computeIncludeExclude_of_nonempty src p image h

/-- C1 at a source with a duplicated static entry, an active and an expired
volatile include rule, a legacy configuration that is not consulted, and an
active exclude rule repeating a static exclude entry. -/
theorem C1_computeIncludeExclude_static_then_active_witness :
    (computeIncludeExclude
        ⟨some ⟨["a", "b", "a"], ["x"]⟩,
          some ⟨[⟨"b", "2023-01-01T00:00:00Z", "2023-12-31T00:00:00Z", ""⟩,
                 ⟨"old", "2021-01-01T00:00:00Z", "2021-12-31T00:00:00Z", ""⟩],
                [⟨"x", "", "", "img-A"⟩]⟩⟩
        ⟨1685577600000000000, ⟨some ⟨["legacy"], ["ly"], ["li"]⟩⟩⟩ "img-A").2.1 = ["x", "x"] ∧
      (computeIncludeExclude
        ⟨some ⟨["a", "b", "a"], ["x"]⟩,
          some ⟨[⟨"b", "2023-01-01T00:00:00Z", "2023-12-31T00:00:00Z", ""⟩,
                 ⟨"old", "2021-01-01T00:00:00Z", "2021-12-31T00:00:00Z", ""⟩],
                [⟨"x", "", "", "img-A"⟩]⟩⟩
        ⟨1685577600000000000, ⟨some ⟨["legacy"], ["ly"], ["li"]⟩⟩⟩ "img-A").1 =
        ["a", "b", "a", "b"] :=
  C1_computeIncludeExclude_static_then_active
    ⟨some ⟨["a", "b", "a"], ["x"]⟩,
      some ⟨[⟨"b", "2023-01-01T00:00:00Z", "2023-12-31T00:00:00Z", ""⟩,
             ⟨"old", "2021-01-01T00:00:00Z", "2021-12-31T00:00:00Z", ""⟩],
            [⟨"x", "", "", "img-A"⟩]⟩⟩
    ⟨1685577600000000000, ⟨some ⟨["legacy"], ["ly"], ["li"]⟩⟩⟩ "img-A" (Or.inl (by decide))

/-- C2, refuted as stated: a source whose only configuration is the static
exclude list `["x"]` resolves to the include list `["*"]`, not to its (empty)
static include list. -/
theorem C2_static_only_counterexample :
    (⟨some ⟨[], ["x"]⟩, none⟩ : Source).VolatileConfig = none ∧
      (⟨0, ⟨none⟩⟩ : ConfigProvider).Spec.Configuration = none ∧
      (NewCriteria ⟨some ⟨[], ["x"]⟩, none⟩ ⟨0, ⟨none⟩⟩ "img-A").includeList = ["*"] ∧
      (NewCriteria ⟨some ⟨[], ["x"]⟩, none⟩ ⟨0, ⟨none⟩⟩ "img-A").includeList ≠
        staticInclude ⟨some ⟨[], ["x"]⟩, none⟩ := by
  decide

/-- C2, amended: for a source with no volatile configuration, under a policy
with no legacy configuration, `NewCriteria` returns the static exclude list
as the exclude list, and as the include list the static include list when
that is non-empty and `["*"]` when it is empty. -/
theorem C2_NewCriteria_static_only (src : Source) (p : ConfigProvider) (image : String)
    (hv : src.VolatileConfig = none) (hl : p.Spec.Configuration = none) :
    (NewCriteria src p image).includeList =
        (if staticInclude src = [] then ["*"] else staticInclude src) ∧
      (NewCriteria src p image).excludeList = staticExclude src := by
  obtain ⟨h1, h2⟩ := computeIncludeExclude_eq src p image
  have hI : specInclude src p.EffectiveTime image = staticInclude src := by
    simp [specInclude, volatileInclude, hv, activeValues]
  have hE : specExclude src p.EffectiveTime image = staticExclude src := by
    simp [specExclude, volatileExclude, hv, activeValues]
  simp only [NewCriteria]
  rw [h1, h2, hl, hI, hE]
  exact ⟨rfl, rfl⟩

/-- C2 (amended) at a source with both static lists set. -/
theorem C2_NewCriteria_static_only_witness :
    (NewCriteria ⟨some ⟨["a", "b"], ["x"]⟩, none⟩ ⟨0, ⟨none⟩⟩ "img-A").includeList =
        ["a", "b"] ∧
      (NewCriteria ⟨some ⟨["a", "b"], ["x"]⟩, none⟩ ⟨0, ⟨none⟩⟩ "img-A").excludeList =
        ["x"] :=
  C2_NewCriteria_static_only ⟨some ⟨["a", "b"], ["x"]⟩, none⟩ ⟨0, ⟨none⟩⟩ "img-A" rfl rfl

/-- C3: for every artifact, a volatile include rule whose bounds parse with
`effectiveFrom ≤ now ≤ effectiveUntil` and whose `imageRef` is empty has its
value in the resolved include list; and the source whose only configuration is
the volatile include rule `v1` from `2023-01-01T00:00:00Z` until
`2023-12-31T00:00:00Z`, with artifact `img-A` and now `2023-06-01T00:00:00Z`,
resolves to include `["v1"]` and an empty exclude list. -/
theorem C3_active_rule_included (src : Source) (p : ConfigProvider) (image : String)
    (vc : VolatileSourceConfig) (c : VolatileCriteria) (f u : Time)
    (hvc : src.VolatileConfig = some vc) (hc : c ∈ vc.Include)
    (hf : parseRFC3339 c.EffectiveOn = some f) (hu : parseRFC3339 c.EffectiveUntil = some u)
    (hfrom : f ≤ p.EffectiveTime) (huntil : p.EffectiveTime ≤ u) (hi : c.ImageRef = "") :
    c.Value ∈ (computeIncludeExclude src p image).1 ∧
      (parseRFC3339 "2023-06-01T00:00:00Z" = some 1685577600000000000 ∧
        computeIncludeExclude
          ⟨none, some ⟨[⟨"v1", "2023-01-01T00:00:00Z", "2023-12-31T00:00:00Z", ""⟩], []⟩⟩
          ⟨1685577600000000000, ⟨none⟩⟩ "img-A" = (["v1"], [], [])) := by
  refine ⟨?_, by decide, by decide⟩
  have ha : specActive p.EffectiveTime image c = true := by
    simp [specActive, hf, hu, hfrom, huntil, hi]
  have hmem : c.Value ∈ specInclude src p.EffectiveTime image := by
    unfold specInclude
    refine List.mem_append_right _ ?_
    simpa [volatileInclude, hvc] using mem_activeValues p.EffectiveTime image c vc.Include hc ha
  have hne : specInclude src p.EffectiveTime image ≠ [] := List.ne_nil_of_mem hmem
  obtain ⟨_, h1⟩ := computeIncludeExclude_of_nonempty src p image (Or.inl hne)
  rw [h1, if_neg hne]
  exact hmem

/-- C3 at the scenario of the specification. -/
theorem C3_active_rule_included_witness :
    "v1" ∈ (computeIncludeExclude
        ⟨none, some ⟨[⟨"v1", "2023-01-01T00:00:00Z", "2023-12-31T00:00:00Z", ""⟩], []⟩⟩
        ⟨1685577600000000000, ⟨none⟩⟩ "img-A").1 :=
  (C3_active_rule_included
    ⟨none, some ⟨[⟨"v1", "2023-01-01T00:00:00Z", "2023-12-31T00:00:00Z", ""⟩], []⟩⟩
    ⟨1685577600000000000, ⟨none⟩⟩ "img-A"
    ⟨[⟨"v1", "2023-01-01T00:00:00Z", "2023-12-31T00:00:00Z", ""⟩], []⟩
    ⟨"v1", "2023-01-01T00:00:00Z", "2023-12-31T00:00:00Z", ""⟩
    1672531200000000000 1703980800000000000 rfl (by decide) (by decide) (by decide)
    (by decide) (by decide) rfl).1

/-- C4: a volatile rule whose `imageRef` is non-empty and different from the
artifact contributes nothing, whatever `now` is: the criteria resolved for a
source equal those resolved for the same source with that rule removed from
its volatile include list, and likewise for its volatile exclude list. -/
theorem C4_other_image_rule_contributes_nothing (src : Source) (p : ConfigProvider)
    (image : String) (vc : VolatileSourceConfig) (c : VolatileCriteria)
    (l1 l2 : List VolatileCriteria) (hvc : src.VolatileConfig = some vc)
    (hne : c.ImageRef ≠ "") (hneq : c.ImageRef ≠ image) :
    (vc.Include = l1 ++ c :: l2 →
        NewCriteria src p image =
          NewCriteria { src with VolatileConfig := some { vc with Include := l1 ++ l2 } }
            p image) ∧
      (vc.Exclude = l1 ++ c :: l2 →
        NewCriteria src p image =
          NewCriteria { src with VolatileConfig := some { vc with Exclude := l1 ++ l2 } }
            p image) :=
  computeIncludeExclude_remove_inactive src p image vc c l1 l2 hvc
    (specActive_of_imageRef_ne p.EffectiveTime image c hne hneq)

/-- C4 at a source whose second include rule is in its window but names
another image. -/
theorem C4_other_image_rule_contributes_nothing_witness :
    NewCriteria
        ⟨none, some ⟨[⟨"v1", "", "", ""⟩,
          ⟨"v2", "2023-01-01T00:00:00Z", "2023-12-31T00:00:00Z", "img-B"⟩,
          ⟨"v3", "", "", "img-A"⟩], []⟩⟩
        ⟨1685577600000000000, ⟨none⟩⟩ "img-A" =
      NewCriteria
        ⟨none, some ⟨[⟨"v1", "", "", ""⟩, ⟨"v3", "", "", "img-A"⟩], []⟩⟩
        ⟨1685577600000000000, ⟨none⟩⟩ "img-A" :=
  (C4_other_image_rule_contributes_nothing
    ⟨none, some ⟨[⟨"v1", "", "", ""⟩,
      ⟨"v2", "2023-01-01T00:00:00Z", "2023-12-31T00:00:00Z", "img-B"⟩,
      ⟨"v3", "", "", "img-A"⟩], []⟩⟩
    ⟨1685577600000000000, ⟨none⟩⟩ "img-A"
    ⟨[⟨"v1", "", "", ""⟩,
      ⟨"v2", "2023-01-01T00:00:00Z", "2023-12-31T00:00:00Z", "img-B"⟩,
      ⟨"v3", "", "", "img-A"⟩], []⟩
    ⟨"v2", "2023-01-01T00:00:00Z", "2023-12-31T00:00:00Z", "img-B"⟩
    [⟨"v1", "", "", ""⟩] [⟨"v3", "", "", "img-A"⟩] rfl (by decide) (by decide)).1 rfl

/-- C5: with no static configuration, no volatile configuration and no legacy
policy configuration, for every artifact and now `computeIncludeExclude`
returns include `["*"]` and an empty exclude list (and logs nothing). -/
theorem C5_no_configuration_wildcard (image : String) (now : Time) :
    computeIncludeExclude ⟨none, none⟩ ⟨now, ⟨none⟩⟩ image = (["*"], [], []) := by
  rfl

/-- C6: for every policy source, config provider (hence every now) and
artifact, the include list of the criteria returned by `NewCriteria` is
non-empty. -/
theorem C6_NewCriteria_include_nonempty (source : Source) (p : ConfigProvider)
    (image : String) : (NewCriteria source p image).includeList ≠ [] := by
  obtain ⟨h1, _⟩ := computeIncludeExclude_eq source p image
  simp only [NewCriteria]
  rw [h1]
  generalize (match p.Spec.Configuration with
    | some pc =>
      if specInclude source p.EffectiveTime image = [] ∧
          specExclude source p.EffectiveTime image = [] then legacyInclude pc
      else specInclude source p.EffectiveTime image
    | none => specInclude source p.EffectiveTime image) = i2
  by_cases h : i2 = []
  · simp [h]
  · simp [h]

/-- C7: when the static and the volatile configuration produce no include and
no exclude entry and a legacy policy configuration exists,
`computeIncludeExclude` returns as exclude the legacy exclude list and as
include the legacy include list followed by `"@" ++ c` for each legacy
collection `c` in order, or `["*"]` when that concatenation is empty. -/
theorem C7_legacy_configuration (src : Source) (p : ConfigProvider) (image : String)
    (pc : EnterpriseContractPolicyConfiguration)
    (hI : specInclude src p.EffectiveTime image = [])
    (hE : specExclude src p.EffectiveTime image = [])
    (hpc : p.Spec.Configuration = some pc) :
    (computeIncludeExclude src p image).2.1 = pc.Exclude ∧
      (computeIncludeExclude src p image).1 =
        (if pc.Include ++ pc.Collections.map (fun c => "@" ++ c) = [] then ["*"]
         else pc.Include ++ pc.Collections.map (fun c => "@" ++ c)) := by
  obtain ⟨h1, h2⟩ := computeIncludeExclude_eq src p image
  rw [h1, h2, hpc, hI, hE]
  simp [legacyInclude]

/-- C7 at a source whose only volatile rule has expired, under a legacy
configuration with two collections. -/
theorem C7_legacy_configuration_witness :
    (computeIncludeExclude
        ⟨some ⟨[], []⟩,
          some ⟨[⟨"old", "2021-01-01T00:00:00Z", "2021-12-31T00:00:00Z", ""⟩], []⟩⟩
        ⟨1685577600000000000, ⟨some ⟨["minimal", "slsa3"], ["ly"], ["li"]⟩⟩⟩ "img-A").2.1 =
        ["ly"] ∧
      (computeIncludeExclude
        ⟨some ⟨[], []⟩,
          some ⟨[⟨"old", "2021-01-01T00:00:00Z", "2021-12-31T00:00:00Z", ""⟩], []⟩⟩
        ⟨1685577600000000000, ⟨some ⟨["minimal", "slsa3"], ["ly"], ["li"]⟩⟩⟩ "img-A").1 =
        ["li", "@minimal", "@slsa3"] :=
  C7_legacy_configuration
    ⟨some ⟨[], []⟩,
      some ⟨[⟨"old", "2021-01-01T00:00:00Z", "2021-12-31T00:00:00Z", ""⟩], []⟩⟩
    ⟨1685577600000000000, ⟨some ⟨["minimal", "slsa3"], ["ly"], ["li"]⟩⟩⟩ "img-A"
    ⟨["minimal", "slsa3"], ["ly"], ["li"]⟩ (by decide) (by decide) rfl

/-- C8: the activation window is inclusive at both ends. For a rule whose
bounds parse to `f` and `u` and whose `imageRef` is empty or equal to the
artifact, the loop of `filter` appends the rule's value if and only if
`f ≤ now` and `now ≤ u`, and leaves the list unchanged otherwise; in
particular, for a window `f ≤ u`, the value is appended at `now = f` and at
`now = u`. -/
theorem C8_window_inclusive (c : VolatileCriteria) (image : String) (f u : Time)
    (hf : parseRFC3339 c.EffectiveOn = some f) (hu : parseRFC3339 c.EffectiveUntil = some u)
    (hi : c.ImageRef = "" ∨ c.ImageRef = image) :
    (∀ (now : Time) (items : List String) (log : List Warning),
        ((filter now image items log [c]).1 = items ++ [c.Value] ↔ f ≤ now ∧ now ≤ u) ∧
        (¬ (f ≤ now ∧ now ≤ u) → (filter now image items log [c]).1 = items)) ∧
      (f ≤ u → ∀ (items : List String) (log : List Warning),
        (filter f image items log [c]).1 = items ++ [c.Value] ∧
        (filter u image items log [c]).1 = items ++ [c.Value]) := by
  have key : ∀ now : Time, (specActive now image c = true ↔ f ≤ now ∧ now ≤ u) := by
    intro now
    rw [specActive_of_imageRef now image c hi, hf, hu]
    rfl
  have main : ∀ (now : Time) (items : List String) (log : List Warning),
      ((filter now image items log [c]).1 = items ++ [c.Value] ↔ f ≤ now ∧ now ≤ u) ∧
      (¬ (f ≤ now ∧ now ≤ u) → (filter now image items log [c]).1 = items) := by
    intro now items log
    obtain ⟨h1, h2⟩ := filter_singleton_iff now image items log c
    refine ⟨h1.trans (key now), fun hn => h2 ?_⟩
    cases hs : specActive now image c
    · rfl
    · exact absurd ((key now).mp hs) hn
  refine ⟨main, fun hfu items log => ⟨?_, ?_⟩⟩
  · exact (main f items log).1.mpr ⟨le_refl f, hfu⟩
  · exact (main u items log).1.mpr ⟨hfu, le_refl u⟩

/-- C8 at the rule `v1` of the specification's scenario: active at the first
and at the last instant of its window. -/
theorem C8_window_inclusive_witness :
    (filter 1672531200000000000 "img-A" [] []
        [⟨"v1", "2023-01-01T00:00:00Z", "2023-12-31T00:00:00Z", ""⟩]).1 = ["v1"] ∧
      (filter 1703980800000000000 "img-A" [] []
        [⟨"v1", "2023-01-01T00:00:00Z", "2023-12-31T00:00:00Z", ""⟩]).1 = ["v1"] :=
  (C8_window_inclusive ⟨"v1", "2023-01-01T00:00:00Z", "2023-12-31T00:00:00Z", ""⟩ "img-A"
    1672531200000000000 1703980800000000000 (by decide) (by decide) (Or.inl rfl)).2
    (by decide) [] []

/-- C9: a time bound that is missing (empty) or fails to parse is replaced by
now. The empty text does not parse, and a bound that does not parse reads as
`now`. For a rule whose `imageRef` is empty or equal to the artifact: with
such a from-bound the value is appended exactly when `now ≤ effectiveUntil`,
with such an until-bound exactly when `effectiveFrom ≤ now`, and with two such
bounds for every now. Missing and unparsable give the same criteria: making
every unparsable bound of a source a missing bound leaves the resolved
criteria unchanged. -/
theorem C9_missing_or_unparsable_bound :
    parseRFC3339 "" = none ∧
      (∀ (now : Time) (value bound : String) (log : List Warning),
        parseRFC3339 bound = none → (parseBound now value bound log).1 = now) ∧
      (∀ (c : VolatileCriteria) (image : String) (now : Time) (items : List String)
          (log : List Warning),
        (c.ImageRef = "" ∨ c.ImageRef = image) →
        (∀ u, parseRFC3339 c.EffectiveOn = none → parseRFC3339 c.EffectiveUntil = some u →
          ((filter now image items log [c]).1 = items ++ [c.Value] ↔ now ≤ u)) ∧
        (∀ f, parseRFC3339 c.EffectiveOn = some f → parseRFC3339 c.EffectiveUntil = none →
          ((filter now image items log [c]).1 = items ++ [c.Value] ↔ f ≤ now)) ∧
        (parseRFC3339 c.EffectiveOn = none → parseRFC3339 c.EffectiveUntil = none →
          (filter now image items log [c]).1 = items ++ [c.Value])) ∧
      (∀ (src : Source) (p : ConfigProvider) (image : String),
        NewCriteria (blankSource src) p image = NewCriteria src p image) := by
  refine ⟨parseRFC3339_empty, ?_, ?_, NewCriteria_blankSource⟩
  · intro now value bound log h
    rw [parseBound_fst, h]
    rfl
  · intro c image now items log hi
    obtain ⟨h1, _⟩ := filter_singleton_iff now image items log c
    have h2 := specActive_of_imageRef now image c hi
    refine ⟨fun u hf hu => ?_, fun f hf hu => ?_, fun hf hu => ?_⟩
    · rw [h1, h2, hf, hu]
      simp
    · rw [h1, h2, hf, hu]
      simp
    · rw [h1, h2, hf, hu]
      simp

/-- C9 at a rule with an unparsable from-bound and a missing until-bound,
which is active at an arbitrary instant, and at a source whose rule has an
unparsable from-bound, compared with the same source with that bound
missing. -/
theorem C9_missing_or_unparsable_bound_witness :
    (filter 1685577600000000000 "img-A" [] [] [⟨"v1", "next week", "", ""⟩]).1 = ["v1"] ∧
      NewCriteria
          ⟨none, some ⟨[⟨"v1", "", "2023-12-31T00:00:00Z", ""⟩], []⟩⟩
          ⟨1685577600000000000, ⟨none⟩⟩ "img-A" =
        NewCriteria
          ⟨none, some ⟨[⟨"v1", "next week", "2023-12-31T00:00:00Z", ""⟩], []⟩⟩
          ⟨1685577600000000000, ⟨none⟩⟩ "img-A" :=
  ⟨(C9_missing_or_unparsable_bound.2.2.1 ⟨"v1", "next week", "", ""⟩ "img-A"
      1685577600000000000 [] [] (Or.inl rfl)).2.2 (by decide) (by decide),
    C9_missing_or_unparsable_bound.2.2.2
      ⟨none, some ⟨[⟨"v1", "next week", "2023-12-31T00:00:00Z", ""⟩], []⟩⟩
      ⟨1685577600000000000, ⟨none⟩⟩ "img-A"⟩

/-! ## The sign-off resolver: lemmas -/

/-- Two maps that agree on the members of a list have the same `flatMap`. -/
theorem flatMap_congr_mem {α β : Type} (l : List α) (f g : α → List β)
    (h : ∀ a ∈ l, f a = g a) : l.flatMap f = l.flatMap g := by
  induction l with
  | nil => rfl
  | cons a l ih =>
    simp only [List.flatMap_cons]
    rw [h a (List.mem_cons_self _ _), ih (fun b hb => h b (List.mem_cons_of_mem _ hb))]

/-- The fuel of `starLoop` is enough: each iteration consumes input, so fuel
beyond the length of the input left changes nothing. -/
theorem starLoop_fuel (step : List Char → Caps → List Thread) (greedy : Bool) :
    ∀ (n : Nat) (s : List Char) (caps : Caps), s.length ≤ n →
      starLoop step greedy (n + 1) s caps = starLoop step greedy n s caps := by
  intro n
  induction n with
  | zero =>
    intro s caps hs
    have hs0 : s = [] := List.length_eq_zero.mp (Nat.le_zero.mp hs)
    subst hs0
    cases greedy <;> simp [starLoop]
  | succ m ih =>
    intro s caps hs
    have hcongr : ((step s caps).filter (fun t => decide (t.1.length < s.length))).flatMap
          (fun t => starLoop step greedy (m + 1) t.1 t.2) =
        ((step s caps).filter (fun t => decide (t.1.length < s.length))).flatMap
          (fun t => starLoop step greedy m t.1 t.2) := by
      apply flatMap_congr_mem
      intro t ht
      have hlt : t.1.length < s.length := by
        have := (List.mem_filter.mp ht).2
        simpa using this
      exact ih t.1 t.2 (by omega)
    rw [starLoop, starLoop, hcongr]

/-- A character with a given lower-case form is that form or, for a letter,
its upper case. -/
theorem eq_of_toLower_eq (a l : Char) (h : a.toLower = l) :
    a = l ∨ (97 ≤ l.toNat ∧ l.toNat ≤ 122 ∧ a = Char.ofNat (l.toNat - 32)) := by
  unfold Char.toLower at h
  simp only at h
  split at h
  · right
    rename_i hn
    have ha : a = Char.ofNat a.toNat := (Char.ofNat_toNat a).symm
    obtain ⟨h1, h2⟩ := hn
    generalize a.toNat = n at h h1 h2 ha
    subst h
    subst ha
    interval_cases n <;> decide
  · left; exact h

/-- Under `(?i)` an ASCII literal matches every character equal to it up to
case. -/
theorem literalMatch_of_toLower_eq (n : Nat) (hn : n < 128) (x : Char)
    (h : x.toLower = (Char.ofNat n).toLower) : literalMatch (Char.ofNat n) true x = true := by
  rcases eq_of_toLower_eq x _ h with h1 | ⟨hlo, hhi, h1⟩
  · subst h1
    clear h
    interval_cases n <;> decide
  · subst h1
    clear h
    revert hlo hhi
    interval_cases n <;> decide

/-- A run of case-insensitive literals consumes a text that matches them
character by character, without touching the captures. -/
theorem run_literals (total : Nat) (r : Regex) (rest : List Char) (caps : Caps) :
    ∀ (ps pre : List Char), List.Forall₂ (fun x p => literalMatch p true x = true) pre ps →
      run total (ps.foldr (fun c acc => Regex.concat (.literal c true) acc) r)
        (pre ++ rest) caps = run total r rest caps := by
  intro ps
  induction ps with
  | nil =>
    intro pre h
    cases h
    rfl
  | cons p ps ih =>
    intro pre h
    cases h with
    | cons hx hrest =>
      simp [run, hx, ih _ hrest]

/-- The parsed form of the default pattern: nineteen case-insensitive
literals, then the capturing group `([a-zA-Z]+-\d+)`. -/
theorem compile_defaultJiraMatch :
    compile defaultJiraMatch =
      .ok ("RedHat JIRA Issue: ".toList.foldr (fun c acc => Regex.concat (.literal c true) acc)
        (.capture 1 (.concat (.plus (.charClass false [('a', 'z'), ('A', 'Z')] true) true)
          (.concat (.literal '-' true) (.plus (.charClass false [('0', '9')] true) true))))) := by
  decide

/-- The capturing group of the default pattern on each case variant of
`ABC-123`: the first thread consumes and captures the whole text. -/
theorem run_jira_group :
    ∀ a ∈ ['a', 'A'], ∀ b ∈ ['b', 'B'], ∀ c ∈ ['c', 'C'],
      (run 26 (.capture 1 (.concat (.plus (.charClass false [('a', 'z'), ('A', 'Z')] true) true)
          (.concat (.literal '-' true) (.plus (.charClass false [('0', '9')] true) true))))
        [a, b, c, '-', '1', '2', '3'] [none]).head? =
      some ([], [some [a, b, c, '-', '1', '2', '3']]) := by
  decide

theorem forall₂_of_map_eq {α β : Type} (f : α → β) :
    ∀ (l t : List α), l.map f = t.map f → List.Forall₂ (fun x p => f x = f p) l t := by
  intro l
  induction l with
  | nil =>
    intro t h
    cases t with
    | nil => exact List.Forall₂.nil
    | cons b t => simp at h
  | cons a l ih =>
    intro t h
    cases t with
    | nil => simp at h
    | cons b t =>
      simp only [List.map_cons, List.cons.injEq] at h
      exact List.Forall₂.cons h.1 (ih t h.2)

theorem literals_match_of_toLower_eq :
    ∀ (pre ps : List Char), (∀ p ∈ ps, p.toNat < 128) →
      List.Forall₂ (fun x p => x.toLower = p.toLower) pre ps →
      List.Forall₂ (fun x p => literalMatch p true x = true) pre ps := by
  intro pre ps hps h
  induction h with
  | nil => exact List.Forall₂.nil
  | @cons x p pre ps hxp _ ih =>
    refine List.Forall₂.cons ?_ (ih (fun q hq => hps q (List.mem_cons_of_mem _ hq)))
    have hp := hps p (List.mem_cons_self _ _)
    have := literalMatch_of_toLower_eq p.toNat hp x (by rw [Char.ofNat_toNat]; exact hxp)
    rwa [Char.ofNat_toNat] at this

/-- A match at the first position is the leftmost match. -/
theorem search_of_head (re : Regex) (total : Nat) (s : List Char) (t : Thread)
    (h : (run total re s (List.replicate (numSubexp re) none)).head? = some t) :
    search re total s = some (s, t) := by
  cases s with
  | nil =>
    unfold search
    cases hr : run total re [] (List.replicate (numSubexp re) none) with
    | nil => rw [hr] at h; simp at h
    | cons t2 tl => rw [hr] at h; simp at h; simp [h]
  | cons x xs =>
    unfold search
    cases hr : run total re (x :: xs) (List.replicate (numSubexp re) none) with
    | nil => rw [hr] at h; simp at h
    | cons t2 tl => rw [hr] at h; simp at h; simp [h]

/-- The default pattern on a case variant of `RedHat JIRA Issue: ABC-123`
returns the text after the nineteen-character prefix. -/
theorem GetBuildSignOff_default (source : Repository) (commit : String)
    (h : eqUpToCase commit "RedHat JIRA Issue: ABC-123") :
    repoSignoffSource.GetBuildSignOff
        { source := source, commit := commit, jiraMatch := defaultJiraMatch } =
      .ret (String.mk (commit.toList.drop 19), none) ∧
      eqUpToCase (String.mk (commit.toList.drop 19)) "ABC-123" := by
  have hF := forall₂_of_map_eq Char.toLower _ _ h
  have hlen : commit.toList.length = 26 := hF.length_eq
  have hpre : List.Forall₂ (fun x p => x.toLower = p.toLower) (commit.toList.take 19)
      "RedHat JIRA Issue: ".toList := List.forall₂_take 19 hF
  have hsuf : List.Forall₂ (fun x p => x.toLower = p.toLower) (commit.toList.drop 19)
      ['A', 'B', 'C', '-', '1', '2', '3'] := List.forall₂_drop 19 hF
  have hsplit : commit.toList = commit.toList.take 19 ++ commit.toList.drop 19 :=
    (List.take_append_drop 19 _).symm
  have hlit := literals_match_of_toLower_eq _ _ (by decide) hpre
  generalize commit.toList.take 19 = pre at hsplit hlit
  generalize commit.toList.drop 19 = suf at hsplit hsuf
  cases hsuf with | @cons a _ _ _ ha hsuf =>
  cases hsuf with | @cons b _ _ _ hb hsuf =>
  cases hsuf with | @cons c _ _ _ hc hsuf =>
  cases hsuf with | @cons d _ _ _ hd hsuf =>
  cases hsuf with | @cons e _ _ _ he hsuf =>
  cases hsuf with | @cons f _ _ _ hf hsuf =>
  cases hsuf with | @cons g _ _ _ hg hsuf =>
  cases hsuf
  have ha2 : a ∈ ['a', 'A'] := by
    rcases eq_of_toLower_eq a _ ha with rfl | ⟨_, _, rfl⟩ <;> decide
  have hb2 : b ∈ ['b', 'B'] := by
    rcases eq_of_toLower_eq b _ hb with rfl | ⟨_, _, rfl⟩ <;> decide
  have hc2 : c ∈ ['c', 'C'] := by
    rcases eq_of_toLower_eq c _ hc with rfl | ⟨_, _, rfl⟩ <;> decide
  have hd2 : d = '-' := by
    rcases eq_of_toLower_eq d _ hd with rfl | ⟨h1, _, _⟩
    · rfl
    · exact absurd h1 (by decide)
  have he2 : e = '1' := by
    rcases eq_of_toLower_eq e _ he with rfl | ⟨h1, _, _⟩
    · rfl
    · exact absurd h1 (by decide)
  have hf2 : f = '2' := by
    rcases eq_of_toLower_eq f _ hf with rfl | ⟨h1, _, _⟩
    · rfl
    · exact absurd h1 (by decide)
  have hg2 : g = '3' := by
    rcases eq_of_toLower_eq g _ hg with rfl | ⟨h1, _, _⟩
    · rfl
    · exact absurd h1 (by decide)
  subst hd2 he2 hf2 hg2
  have hrun := run_jira_group a ha2 b hb2 c hc2
  have hsearch := search_of_head
    ("RedHat JIRA Issue: ".toList.foldr (fun c acc => Regex.concat (.literal c true) acc)
        (.capture 1 (.concat (.plus (.charClass false [('a', 'z'), ('A', 'Z')] true) true)
          (.concat (.literal '-' true) (.plus (.charClass false [('0', '9')] true) true)))))
    26 (pre ++ [a, b, c, '-', '1', '2', '3']) ([], [some [a, b, c, '-', '1', '2', '3']])
    (by
      rw [show numSubexp _ = 1 from by decide]
      rw [run_literals 26 _ _ _ _ pre hlit]
      exact hrun)
  constructor
  · simp only [repoSignoffSource.GetBuildSignOff, compile_defaultJiraMatch, FindStringSubmatch,
      hsplit] at hsearch ⊢
    rw [← hsplit, hlen, hsplit, hsearch]
    simp
    rfl
  · show List.map Char.toLower [a, b, c, '-', '1', '2', '3'] = _
    simp only [List.map_cons, ha, hb, hc]
    rfl

/-! ## The sign-off resolver: claims -/

/-- C10, refuted as stated: the commit message `redhat jira issue: abc-123`
equals `RedHat JIRA Issue: ABC-123` up to letter case, and with the default
pattern `GetBuildSignOff` returns the reference `abc-123`, in the letter case
of the message, not `ABC-123`. -/
theorem C10_lower_case_counterexample :
    eqUpToCase "redhat jira issue: abc-123" "RedHat JIRA Issue: ABC-123" ∧
      repoSignoffSource.GetBuildSignOff
          { source := ⟨fun _ => .error "object not found"⟩,
            commit := "redhat jira issue: abc-123", jiraMatch := defaultJiraMatch } =
        .ret ("abc-123", none) ∧
      repoSignoffSource.GetBuildSignOff
          { source := ⟨fun _ => .error "object not found"⟩,
            commit := "redhat jira issue: abc-123", jiraMatch := defaultJiraMatch } ≠
        .ret ("ABC-123", none) := by
  decide

/-- C10, amended: with the default pattern, for every commit message equal to
`RedHat JIRA Issue: ABC-123` up to letter case, `GetBuildSignOff` succeeds and
returns a single reference, the text of the message after its first nineteen
characters, which equals `ABC-123` up to letter case; for the message
`RedHat JIRA Issue: ABC-123` itself the reference is `ABC-123`. -/
theorem C10_default_pattern_reference (source : Repository) (commit : String)
    (h : eqUpToCase commit "RedHat JIRA Issue: ABC-123") :
    (repoSignoffSource.GetBuildSignOff
          { source := source, commit := commit, jiraMatch := defaultJiraMatch } =
        .ret (String.mk (commit.toList.drop 19), none) ∧
      eqUpToCase (String.mk (commit.toList.drop 19)) "ABC-123") ∧
      repoSignoffSource.GetBuildSignOff
          { source := source, commit := "RedHat JIRA Issue: ABC-123",
            jiraMatch := defaultJiraMatch } =
        .ret ("ABC-123", none) :=
  ⟨GetBuildSignOff_default source commit h,
    (GetBuildSignOff_default source "RedHat JIRA Issue: ABC-123" (by decide)).1⟩

/-- C10 (amended) at a message in mixed case. -/
theorem C10_default_pattern_reference_witness :
    repoSignoffSource.GetBuildSignOff
        { source := ⟨fun _ => .error "object not found"⟩,
          commit := "REDHAT jira Issue: AbC-123", jiraMatch := defaultJiraMatch } =
      .ret ("AbC-123", none) :=
  (C10_default_pattern_reference ⟨fun _ => .error "object not found"⟩
    "REDHAT jira Issue: AbC-123" (by decide)).1.1

/-! ## The sign-off resolver: further lemmas -/

/-- A search that finds nothing is a text with no match, and conversely. -/
theorem search_eq_none_iff (re : Regex) (total : Nat) (s : List Char) :
    search re total s = none ↔
      ∀ t : List Char, t <:+ s → run total re t (List.replicate (numSubexp re) none) = [] := by
  induction s with
  | nil =>
    unfold search
    constructor
    · intro h t ht
      have : t = [] := List.suffix_nil.mp ht
      subst this
      cases hr : run total re [] (List.replicate (numSubexp re) none) with
      | nil => rfl
      | cons a l => rw [hr] at h; simp at h
    · intro h
      rw [h [] (List.suffix_refl _)]
  | cons x xs ih =>
    unfold search
    constructor
    · intro h t ht
      cases hr : run total re (x :: xs) (List.replicate (numSubexp re) none) with
      | nil =>
        rw [hr] at h
        simp only at h
        rcases List.suffix_cons_iff.mp ht with h1 | h1
        · rw [h1]; exact hr
        · exact (ih.mp h) t h1
      | cons a l => rw [hr] at h; simp at h
    · intro h
      rw [h (x :: xs) (List.suffix_refl _)]
      simp only
      exact ih.mpr (fun t ht => h t (List.suffix_cons_iff.mpr (Or.inr ht)))

/-- The result of `FindStringSubmatch` is empty exactly when the search finds
nothing. -/
theorem FindStringSubmatch_eq_nil_iff (re : Regex) (s : String) :
    FindStringSubmatch re s = [] ↔ search re s.toList.length s.toList = none := by
  unfold FindStringSubmatch
  cases search re s.toList.length s.toList with
  | none => simp
  | some r => simp

/-- On a text with no match, `GetBuildSignOff` returns the error and the
empty string; on a text with a match, it returns no error. -/
theorem GetBuildSignOff_of_compile (b : repoSignoffSource) (re : Regex)
    (hre : compile b.jiraMatch = .ok re) :
    (FindStringSubmatch re b.commit = [] →
        b.GetBuildSignOff = .ret ("", some "there were no jira references found.")) ∧
      (FindStringSubmatch re b.commit ≠ [] →
        b.GetBuildSignOff =
          .ret ((FindStringSubmatch re b.commit).getD
            ((FindStringSubmatch re b.commit).length - 1) "", none)) := by
  unfold repoSignoffSource.GetBuildSignOff
  rw [hre]
  constructor
  · intro h
    simp [h]
  · intro h
    have hlen : ¬ (FindStringSubmatch re b.commit).length < 1 := by
      cases hf : FindStringSubmatch re b.commit with
      | nil => exact absurd hf h
      | cons a l => simp
    simp only [hlen, if_false, List.nil_append]
    rfl


/-- The iterations of a repetition keep the number of capture registers. -/
theorem starLoop_caps_length (step : List Char → Caps → List Thread) (greedy : Bool)
    (hstep : ∀ s caps t, t ∈ step s caps → t.2.length = caps.length) :
    ∀ (n : Nat) (s : List Char) (caps : Caps) (t : Thread),
      t ∈ starLoop step greedy n s caps → t.2.length = caps.length := by
  intro n
  induction n with
  | zero =>
    intro s caps t ht
    simp [starLoop] at ht
    rw [ht]
  | succ m ih =>
    intro s caps t ht
    have key : t = (s, caps) ∨ ∃ u ∈ step s caps, t ∈ starLoop step greedy m u.1 u.2 := by
      cases greedy <;> simp [starLoop] at ht <;> rcases ht with h | h
      · exact Or.inl h
      · obtain ⟨a, b, ⟨hu, _⟩, h2⟩ := h
        exact Or.inr ⟨(a, b), hu, h2⟩
      · obtain ⟨a, b, ⟨hu, _⟩, h2⟩ := h
        exact Or.inr ⟨(a, b), hu, h2⟩
      · exact Or.inl h
    rcases key with h | ⟨u, hu, h2⟩
    · rw [h]
    · rw [ih u.1 u.2 t h2, hstep s caps u hu]

/-- A run keeps the number of capture registers. -/
theorem run_caps_length (total : Nat) :
    ∀ (re : Regex) (s : List Char) (caps : Caps) (t : Thread),
      t ∈ run total re s caps → t.2.length = caps.length := by
  intro re
  induction re with
  | emptyMatch => intro s caps t ht; simp [run] at ht; rw [ht]
  | literal c fold =>
    intro s caps t ht
    cases s with
    | nil => simp [run] at ht
    | cons x xs =>
      by_cases h : literalMatch c fold x = true
      · simp [run, h] at ht; rw [ht]
      · simp [run, h] at ht
  | charClass neg ranges fold =>
    intro s caps t ht
    cases s with
    | nil => simp [run] at ht
    | cons x xs =>
      by_cases h : classMatch neg ranges fold x = true
      · simp [run, h] at ht; rw [ht]
      · simp [run, h] at ht
  | anyCharNotNL =>
    intro s caps t ht
    cases s with
    | nil => simp [run] at ht
    | cons x xs =>
      by_cases h : x = '\n'
      · simp [run, h] at ht
      · simp [run, h] at ht; rw [ht]
  | beginText =>
    intro s caps t ht
    by_cases h : s.length = total
    · simp [run, h] at ht; rw [ht]
    · simp [run, h] at ht
  | endText =>
    intro s caps t ht
    by_cases h : s.length = 0
    · simp only [run, h, if_true, List.mem_singleton] at ht; rw [ht]
    · simp only [run, h, if_false, List.not_mem_nil] at ht
  | concat a b iha ihb =>
    intro s caps t ht
    simp only [run, List.mem_flatMap] at ht
    obtain ⟨u, hu, h2⟩ := ht
    rw [ihb u.1 u.2 t h2, iha s caps u hu]
  | alternate a b iha ihb =>
    intro s caps t ht
    simp only [run, List.mem_append] at ht
    rcases ht with h | h
    · exact iha s caps t h
    · exact ihb s caps t h
  | star a greedy iha =>
    intro s caps t ht
    simp only [run] at ht
    exact starLoop_caps_length (run total a) greedy iha _ s caps t ht
  | plus a greedy iha =>
    intro s caps t ht
    simp only [run, List.mem_flatMap] at ht
    obtain ⟨u, hu, h2⟩ := ht
    rw [starLoop_caps_length (run total a) greedy iha _ u.1 u.2 t h2, iha s caps u hu]
  | quest a greedy iha =>
    intro s caps t ht
    cases greedy
    · simp only [run, Bool.false_eq_true, if_false, List.mem_cons] at ht
      rcases ht with h | h
      · rw [h]
      · exact iha s caps t h
    · simp only [run, if_true, List.mem_append, List.mem_singleton] at ht
      rcases ht with h | h
      · exact iha s caps t h
      · rw [h]
  | capture index a iha =>
    intro s caps t ht
    simp only [run, List.mem_map] at ht
    obtain ⟨u, hu, h2⟩ := ht
    rw [← h2]
    simp only [List.length_set]
    exact iha s caps u hu

/-- The iterations of a repetition do not lengthen the input left. -/
theorem starLoop_length_le (step : List Char → Caps → List Thread) (greedy : Bool)
    (hstep : ∀ s caps t, t ∈ step s caps → t.1.length ≤ s.length) :
    ∀ (n : Nat) (s : List Char) (caps : Caps) (t : Thread),
      t ∈ starLoop step greedy n s caps → t.1.length ≤ s.length := by
  intro n
  induction n with
  | zero =>
    intro s caps t ht
    simp [starLoop] at ht
    rw [ht]
  | succ m ih =>
    intro s caps t ht
    have key : t = (s, caps) ∨ ∃ u ∈ step s caps, t ∈ starLoop step greedy m u.1 u.2 := by
      cases greedy <;> simp [starLoop] at ht <;> rcases ht with h | h
      · exact Or.inl h
      · obtain ⟨a, b, ⟨hu, _⟩, h2⟩ := h
        exact Or.inr ⟨(a, b), hu, h2⟩
      · obtain ⟨a, b, ⟨hu, _⟩, h2⟩ := h
        exact Or.inr ⟨(a, b), hu, h2⟩
      · exact Or.inl h
    rcases key with h | ⟨u, hu, h2⟩
    · rw [h]
    · exact Nat.le_trans (ih u.1 u.2 t h2) (hstep s caps u hu)

/-- A run does not lengthen the input left. -/
theorem run_length_le (total : Nat) :
    ∀ (re : Regex) (s : List Char) (caps : Caps) (t : Thread),
      t ∈ run total re s caps → t.1.length ≤ s.length := by
  intro re
  induction re with
  | emptyMatch => intro s caps t ht; simp [run] at ht; rw [ht]
  | literal c fold =>
    intro s caps t ht
    cases s with
    | nil => simp [run] at ht
    | cons x xs =>
      by_cases h : literalMatch c fold x = true
      · simp [run, h] at ht; rw [ht]; simp
      · simp [run, h] at ht
  | charClass neg ranges fold =>
    intro s caps t ht
    cases s with
    | nil => simp [run] at ht
    | cons x xs =>
      by_cases h : classMatch neg ranges fold x = true
      · simp [run, h] at ht; rw [ht]; simp
      · simp [run, h] at ht
  | anyCharNotNL =>
    intro s caps t ht
    cases s with
    | nil => simp [run] at ht
    | cons x xs =>
      by_cases h : x = '\n'
      · simp [run, h] at ht
      · simp [run, h] at ht; rw [ht]; simp
  | beginText =>
    intro s caps t ht
    by_cases h : s.length = total
    · simp [run, h] at ht; rw [ht]
    · simp [run, h] at ht
  | endText =>
    intro s caps t ht
    by_cases h : s.length = 0
    · simp only [run, h, if_true, List.mem_singleton] at ht; rw [ht]
    · simp only [run, h, if_false, List.not_mem_nil] at ht
  | concat a b iha ihb =>
    intro s caps t ht
    simp only [run, List.mem_flatMap] at ht
    obtain ⟨u, hu, h2⟩ := ht
    exact Nat.le_trans (ihb u.1 u.2 t h2) (iha s caps u hu)
  | alternate a b iha ihb =>
    intro s caps t ht
    simp only [run, List.mem_append] at ht
    rcases ht with h | h
    · exact iha s caps t h
    · exact ihb s caps t h
  | star a greedy iha =>
    intro s caps t ht
    simp only [run] at ht
    exact starLoop_length_le (run total a) greedy iha s.length s caps t ht
  | plus a greedy iha =>
    intro s caps t ht
    simp only [run, List.mem_flatMap] at ht
    obtain ⟨u, hu, h2⟩ := ht
    exact Nat.le_trans (starLoop_length_le (run total a) greedy iha u.1.length u.1 u.2 t h2)
      (iha s caps u hu)
  | quest a greedy iha =>
    intro s caps t ht
    cases greedy <;> simp only [run, if_true, if_false, Bool.false_eq_true, List.mem_cons,
      List.mem_append, List.mem_singleton, List.not_mem_nil, or_false] at ht <;>
      rcases ht with h | h
    · rw [h]
    · exact iha s caps t h
    · exact iha s caps t h
    · rw [h]
  | capture index a iha =>
    intro s caps t ht
    simp only [run, List.mem_map] at ht
    obtain ⟨u, hu, h2⟩ := ht
    rw [← h2]
    exact iha s caps u hu

/-- A pattern that cannot match the empty text consumes input in every
thread of a run. -/
theorem run_consumes (total : Nat) :
    ∀ (re : Regex), nullable re = false → ∀ (s : List Char) (caps : Caps) (t : Thread),
      t ∈ run total re s caps → t.1.length < s.length := by
  intro re
  induction re with
  | emptyMatch => intro hn; simp [nullable] at hn
  | literal c fold =>
    intro _ s caps t ht
    cases s with
    | nil => simp [run] at ht
    | cons x xs =>
      by_cases h : literalMatch c fold x = true
      · simp [run, h] at ht; rw [ht]; simp
      · simp [run, h] at ht
  | charClass neg ranges fold =>
    intro _ s caps t ht
    cases s with
    | nil => simp [run] at ht
    | cons x xs =>
      by_cases h : classMatch neg ranges fold x = true
      · simp [run, h] at ht; rw [ht]; simp
      · simp [run, h] at ht
  | anyCharNotNL =>
    intro _ s caps t ht
    cases s with
    | nil => simp [run] at ht
    | cons x xs =>
      by_cases h : x = '\n'
      · simp [run, h] at ht
      · simp [run, h] at ht; rw [ht]; simp
  | beginText => intro hn; simp [nullable] at hn
  | endText => intro hn; simp [nullable] at hn
  | concat a b iha ihb =>
    intro hn s caps t ht
    simp only [run, List.mem_flatMap] at ht
    obtain ⟨u, hu, h2⟩ := ht
    have h1 := run_length_le total a s caps u hu
    have h3 := run_length_le total b u.1 u.2 t h2
    simp only [nullable, Bool.and_eq_false_iff] at hn
    rcases hn with hn | hn
    · exact Nat.lt_of_le_of_lt h3 (iha hn s caps u hu)
    · exact Nat.lt_of_lt_of_le (ihb hn u.1 u.2 t h2) h1
  | alternate a b iha ihb =>
    intro hn s caps t ht
    simp only [nullable, Bool.or_eq_false_iff] at hn
    simp only [run, List.mem_append] at ht
    rcases ht with h | h
    · exact iha hn.1 s caps t h
    · exact ihb hn.2 s caps t h
  | star a greedy _ => intro hn; simp [nullable] at hn
  | plus a greedy iha =>
    intro hn s caps t ht
    simp only [nullable] at hn
    simp only [run, List.mem_flatMap] at ht
    obtain ⟨u, hu, h2⟩ := ht
    exact Nat.lt_of_le_of_lt
      (starLoop_length_le (run total a) greedy (run_length_le total a) u.1.length u.1 u.2 t h2)
      (iha hn s caps u hu)
  | quest a greedy _ => intro hn; simp [nullable] at hn
  | capture index a iha =>
    intro hn s caps t ht
    simp only [nullable] at hn
    simp only [run, List.mem_map] at ht
    obtain ⟨u, hu, h2⟩ := ht
    rw [← h2]
    exact iha hn s caps u hu

/-- In a repetition over a body that cannot match the empty text, the filter
of `starLoop` keeps every iteration of the body. -/
theorem run_filter_consuming (total : Nat) (a : Regex) (hn : nullable a = false)
    (s : List Char) (caps : Caps) :
    (run total a s caps).filter (fun t => decide (t.1.length < s.length)) =
      run total a s caps := by
  rw [List.filter_eq_self]
  intro t ht
  exact decide_eq_true (run_consumes total a hn s caps t ht)

/-- What a successful search returns is the first thread of the run at the
position it returns, a suffix of the text. -/
theorem search_eq_some (re : Regex) (total : Nat) :
    ∀ (s start : List Char) (t : Thread), search re total s = some (start, t) →
      start <:+ s ∧
        (run total re start (List.replicate (numSubexp re) none)).head? = some t := by
  intro s
  induction s with
  | nil =>
    intro start t h
    unfold search at h
    cases hr : run total re [] (List.replicate (numSubexp re) none) with
    | nil => rw [hr] at h; simp at h
    | cons a l =>
      rw [hr] at h
      simp only [Option.some.injEq, Prod.mk.injEq] at h
      obtain ⟨h1, h2⟩ := h
      subst h1 h2
      exact ⟨List.suffix_refl _, by rw [hr]; rfl⟩
  | cons x xs ih =>
    intro start t h
    unfold search at h
    cases hr : run total re (x :: xs) (List.replicate (numSubexp re) none) with
    | nil =>
      rw [hr] at h
      simp only at h
      obtain ⟨h1, h2⟩ := ih start t h
      exact ⟨List.suffix_cons_iff.mpr (Or.inr h1), h2⟩
    | cons a l =>
      rw [hr] at h
      simp only [Option.some.injEq, Prod.mk.injEq] at h
      obtain ⟨h1, h2⟩ := h
      subst h1 h2
      exact ⟨List.suffix_refl _, by rw [hr]; rfl⟩

/-- A successful search returns as many capture registers as the pattern has
groups. -/
theorem search_caps_length (re : Regex) (total : Nat) (s start : List Char) (t : Thread)
    (h : search re total s = some (start, t)) : t.2.length = numSubexp re := by
  obtain ⟨_, h2⟩ := search_eq_some re total s start t h
  have hmem : t ∈ run total re start (List.replicate (numSubexp re) none) :=
    List.mem_of_mem_head? h2
  rw [run_caps_length total re start _ t hmem, List.length_replicate]


/-- On a text with a match, `GetBuildSignOff` returns the text of the group of
the highest number, or of the whole match when the pattern has no group. -/
theorem GetBuildSignOff_of_match (b : repoSignoffSource) (re : Regex)
    (found : List Char × Thread) (hre : compile b.jiraMatch = .ok re)
    (hm : search re b.commit.toList.length b.commit.toList = some found) :
    b.GetBuildSignOff =
      .ret (if numSubexp re = 0 then matchText found
        else groupText found (numSubexp re), none) := by
  obtain ⟨start, rest, caps⟩ := found
  have hlen : caps.length = numSubexp re := search_caps_length re _ _ start (rest, caps) hm
  have hfind : FindStringSubmatch re b.commit =
      String.mk (start.take (start.length - rest.length)) ::
        caps.map (fun o => String.mk (o.getD [])) := by
    unfold FindStringSubmatch
    rw [hm]
  have hne : FindStringSubmatch re b.commit ≠ [] := by rw [hfind]; simp
  rw [(GetBuildSignOff_of_compile b re hre).2 hne, hfind]
  simp only [List.length_cons, List.length_map, hlen, Nat.add_sub_cancel]
  by_cases h0 : numSubexp re = 0
  · simp [h0, matchText]
  · obtain ⟨k, hk⟩ := Nat.exists_eq_succ_of_ne_zero h0
    have hk2 : k < caps.length := by omega
    simp [hk, groupText, List.getD_eq_getElem?_getD, List.getElem?_eq_getElem hk2]

/-- With a pattern that compiles, `GetBuildSignOff` is `signOffOfMatch` on the
result of `FindStringSubmatch`. -/
theorem GetBuildSignOff_eq_signOffOfMatch (b : repoSignoffSource) (re : Regex)
    (hre : compile b.jiraMatch = .ok re) :
    b.GetBuildSignOff = .ret (signOffOfMatch (FindStringSubmatch re b.commit)) := by
  unfold repoSignoffSource.GetBuildSignOff signOffOfMatch
  rw [hre]
  simp only
  split <;> rfl

/-- The element at the last index of a non-empty list. -/
theorem getD_last_cons (whole : String) (groups : List String) :
    (whole :: groups).getD groups.length "" = (groups.getLast?).getD whole := by
  induction groups generalizing whole with
  | nil => rfl
  | cons g gs ih =>
    rw [List.length_cons, List.getD_cons_succ, ih g]
    cases gs <;> simp [List.getLast?]

/-- On the slice of a match, the text of the match followed by the texts of
the groups, `signOffOfMatch` returns the last element and no error. -/
theorem signOffOfMatch_cons (whole : String) (groups : List String) :
    signOffOfMatch (whole :: groups) = ((groups.getLast?).getD whole, none) := by
  unfold signOffOfMatch
  simp only [List.length_cons, Nat.add_sub_cancel]
  have h : ¬ (groups.length + 1 < 1) := by omega
  rw [if_neg h]
  simp only [List.nil_append, String.intercalate, Prod.mk.injEq, and_true]
  exact getD_last_cons whole groups

/-- On the empty slice `signOffOfMatch` returns the error. -/
theorem signOffOfMatch_nil :
    signOffOfMatch [] = ("", some "there were no jira references found.") := rfl

/-- On the slice of a match `signOffOfMatch` returns one element of the
slice. -/
theorem signOffOfMatch_mem (whole : String) (groups : List String) :
    (signOffOfMatch (whole :: groups)).1 ∈ whole :: groups ∧
      (signOffOfMatch (whole :: groups)).2 = none := by
  rw [signOffOfMatch_cons, ← getD_last_cons]
  refine ⟨?_, rfl⟩
  have h : groups.length < (whole :: groups).length := by simp
  rw [List.getD_eq_getElem?_getD, List.getElem?_eq_getElem h]
  exact List.getElem_mem h

/-! ## The sign-off command: lemmas -/

/-- The loop of `validate` over attestations that all succeed, then one that
fails: the lines of the former are printed, the error of the latter is
returned, and what follows it is not processed. -/
theorem validateLoop_first_failure {σ : Type} (marshal : σ → Except Error String)
    (bad : SignOffAttestation σ) (post : List (SignOffAttestation σ)) (err : Error)
    (hbad : validateStep marshal bad = .error err) :
    ∀ (pre : List (SignOffAttestation σ)) (out : List String),
      (∀ a ∈ pre, ∃ o, validateStep marshal a = .ok o) →
      validateLoop marshal (pre ++ bad :: post) out =
        (out ++ pre.filterMap (emittedLine marshal), some err) := by
  intro pre
  induction pre with
  | nil =>
    intro out _
    simp [validateLoop, hbad]
  | cons a pre ih =>
    intro out hpre
    obtain ⟨o, ho⟩ := hpre a (List.mem_cons_self _ _)
    have hrest : ∀ a2 ∈ pre, ∃ o, validateStep marshal a2 = .ok o :=
      fun a2 h => hpre a2 (List.mem_cons_of_mem _ h)
    cases o with
    | none =>
      simp [validateLoop, ho, ih out hrest, emittedLine, List.filterMap_cons]
    | some payload =>
      simp [validateLoop, ho, ih (out ++ [payload]) hrest, emittedLine, List.filterMap_cons]

/-- The loop of `validate` over attestations that all succeed prints the line
of each and returns no error. -/
theorem validateLoop_all_succeed {σ : Type} (marshal : σ → Except Error String) :
    ∀ (atts : List (SignOffAttestation σ)) (out : List String),
      (∀ a ∈ atts, ∃ o, validateStep marshal a = .ok o) →
      validateLoop marshal atts out = (out ++ atts.filterMap (emittedLine marshal), none) := by
  intro atts
  induction atts with
  | nil =>
    intro out _
    simp [validateLoop]
  | cons a atts ih =>
    intro out hall
    obtain ⟨o, ho⟩ := hall a (List.mem_cons_self _ _)
    have hrest : ∀ a2 ∈ atts, ∃ o, validateStep marshal a2 = .ok o :=
      fun a2 h => hall a2 (List.mem_cons_of_mem _ h)
    cases o with
    | none =>
      simp [validateLoop, ho, ih out hrest, emittedLine, List.filterMap_cons]
    | some payload =>
      simp [validateLoop, ho, ih (out ++ [payload]) hrest, emittedLine, List.filterMap_cons]

/-- The `RunE` of the command goes through every image, prints what `validate`
prints for each, and returns no error. -/
theorem signOffRunE_eq {σ : Type} (env : SignOffEnv σ) (publicKey : String) :
    ∀ images : List String,
      (signOffRunE env publicKey images).1 =
          images.flatMap (fun i => (validate env i publicKey).1) ∧
        (signOffRunE env publicKey images).2.2 = none := by
  intro images
  induction images with
  | nil => exact ⟨rfl, rfl⟩
  | cons i rest ih =>
    unfold signOffRunE
    simp only [List.flatMap_cons]
    cases (validate env i publicKey).2 with
    | none => exact ⟨by rw [ih.1], ih.2⟩
    | some err => exact ⟨by rw [ih.1], ih.2⟩

/-! ## The report: lemmas -/

/-- The loops of the report collect the statements by component and then by
attestation. -/
theorem Report.statementBytes_eq (r : Report) : r.statementBytes = r.statementsInOrder := by
  have inner : ∀ (atts : List AttestationResult) (acc : List (List UInt8)),
      atts.foldl (fun byts a => byts ++ [a.Statement]) acc =
        acc ++ atts.map (fun a => a.Statement) := by
    intro atts
    induction atts with
    | nil => intro acc; simp
    | cons a atts ih => intro acc; simp [ih]
  have outer : ∀ (cs : List Component) (acc : List (List UInt8)),
      cs.foldl (fun byts c =>
          c.Attestations.foldl (fun byts a => byts ++ [a.Statement]) byts) acc =
        acc ++ cs.flatMap (fun c => c.Attestations.map (fun a => a.Statement)) := by
    intro cs
    induction cs with
    | nil => intro acc; simp
    | cons c cs ih =>
      intro acc
      rw [List.foldl_cons, ih, inner, List.flatMap_cons, List.append_assoc]
  unfold Report.statementBytes Report.statementsInOrder
  rw [outer]
  simp

/-- The rendering `lineDelimited` puts one newline byte before every record
but the first. -/
theorem lineDelimited_cons (a : List UInt8) (rest : List (List UInt8)) :
    lineDelimited (a :: rest) = a ++ rest.flatMap (fun v => 10 :: v) := by
  induction rest generalizing a with
  | nil => simp [lineDelimited]
  | cons b rest ih => simp [lineDelimited, ih b]

/-- Go `bytes.Join` with a newline is the line-delimited rendering. -/
theorem bytesJoin_newline (s : List (List UInt8)) : bytesJoin s [10] = lineDelimited s := by
  have fold : ∀ (rest : List (List UInt8)) (a : List UInt8),
      rest.foldl (fun b v => b ++ [10] ++ v) a = a ++ rest.flatMap (fun v => 10 :: v) := by
    intro rest
    induction rest with
    | nil => intro a; simp
    | cons b rest ih =>
      intro a
      rw [List.foldl_cons, ih, List.flatMap_cons]
      simp
  cases s with
  | nil => rfl
  | cons a rest =>
    cases rest with
    | nil => simp [bytesJoin, lineDelimited]
    | cons b rest =>
      rw [lineDelimited_cons]
      simp only [bytesJoin]
      exact fold (b :: rest) a

/-- Records that hold no newline byte are separated by exactly one: the
rendering of `n` of them holds `n - 1` newline bytes. -/
theorem lineDelimited_count (s : List (List UInt8)) (h : ∀ v ∈ s, (10 : UInt8) ∉ v) :
    (lineDelimited s).count 10 = s.length - 1 := by
  cases s with
  | nil => rfl
  | cons a rest =>
    rw [lineDelimited_cons]
    have ha : a.count 10 = 0 := List.count_eq_zero.mpr (h a (List.mem_cons_self _ _))
    have hrest : ∀ (l : List (List UInt8)), (∀ v ∈ l, (10 : UInt8) ∉ v) →
        (l.flatMap (fun v => 10 :: v)).count 10 = l.length := by
      intro l
      induction l with
      | nil => intro _; rfl
      | cons b l ih =>
        intro hl
        have hb : b.count 10 = 0 := List.count_eq_zero.mpr (hl b (List.mem_cons_self _ _))
        simp [List.flatMap_cons, List.count_append, hb,
          ih (fun v hv => hl v (List.mem_cons_of_mem _ hv))]
    simp [List.count_append, ha, hrest rest (fun v hv => h v (List.mem_cons_of_mem _ hv))]

/-- The rendering ends with the last record: no newline byte follows it. -/
theorem lineDelimited_concat (init : List (List UInt8)) (last : List UInt8) :
    lineDelimited (init ++ [last]) = init.flatMap (fun v => v ++ [10]) ++ last := by
  induction init with
  | nil => simp [lineDelimited]
  | cons a init ih =>
    cases init with
    | nil => simp [lineDelimited]
    | cons b init =>
      have h2 : lineDelimited (a :: b :: init ++ [last]) =
          a ++ 10 :: lineDelimited (b :: init ++ [last]) := rfl
      rw [h2, ih]
      simp

/-- The loop over one component ends early when a statement of it fails to
decode. -/
theorem attestationsOfComponent_failure {τ : Type} (unmarshal : List UInt8 → Except Error τ) :
    ∀ (atts : List AttestationResult) (acc : List τ),
      (∃ a ∈ atts, ∃ err, unmarshal a.Statement = .error err) →
      attestationsOfComponent unmarshal atts acc = none := by
  intro atts
  induction atts with
  | nil => intro acc h; simp at h
  | cons a atts ih =>
    intro acc h
    unfold attestationsOfComponent
    cases hu : unmarshal a.Statement with
    | error e => rfl
    | ok st =>
      simp only
      apply ih
      obtain ⟨a2, ha2, err, herr⟩ := h
      rcases List.mem_cons.mp ha2 with h1 | h1
      · subst h1; rw [hu] at herr; cases herr
      · exact ⟨a2, h1, err, herr⟩

/-- The loop over the components ends early when a statement of one of them
fails to decode. -/
theorem attestationsOfComponents_failure {τ : Type}
    (unmarshal : List UInt8 → Except Error τ) :
    ∀ (cs : List Component) (acc : List τ),
      (∃ c ∈ cs, ∃ a ∈ c.Attestations, ∃ err, unmarshal a.Statement = .error err) →
      attestationsOfComponents unmarshal cs acc = none := by
  intro cs
  induction cs with
  | nil => intro acc h; simp at h
  | cons c cs ih =>
    intro acc h
    unfold attestationsOfComponents
    cases hc : attestationsOfComponent unmarshal c.Attestations acc with
    | none => rfl
    | some st =>
      simp only
      apply ih
      obtain ⟨c2, hc2, hfail⟩ := h
      rcases List.mem_cons.mp hc2 with h1 | h1
      · subst h1
        rw [attestationsOfComponent_failure unmarshal _ acc hfail] at hc
        cases hc
      · exact ⟨c2, h1, hfail⟩

/-! ## The provenance extractor: lemmas -/

/-- The extractor returns a record or an error, never both and never
neither. -/
theorem SLSAProvenanceFromSignature_record_iff (codec : Codec) (sig : Option EnvelopeSource) :
    ((SLSAProvenanceFromSignature codec sig).err ≠ none →
        (SLSAProvenanceFromSignature codec sig).record = none) ∧
      ((SLSAProvenanceFromSignature codec sig).err = none →
        (SLSAProvenanceFromSignature codec sig).record ≠ none) := by
  unfold SLSAProvenanceFromSignature
  cases sig with
  | none => simp
  | some s =>
    simp only
    cases s.MediaType with
    | error e => simp
    | ok typ =>
      simp only
      by_cases ht : typ ≠ DssePayloadType
      · simp [ht]
      · simp only [ht, if_false]
        cases s.Uncompressed with
        | error e => simp
        | ok bytes =>
          simp only
          cases decodeProvenance codec bytes with
          | error e => simp
          | ok p =>
            obtain ⟨envelope, statement⟩ := p
            simp only
            cases hr : resolveSigner s envelope.signatures with
            | mk res calls =>
              cases res with
              | error e => simp
              | ok signer => simp

/-- A media type that is read but is not the expected one: `AT002` with the
message of the mismatch, after the media type accessor alone. -/
theorem SLSAProvenanceFromSignature_mediaType (codec : Codec) (s : EnvelopeSource)
    (typ : String) (hmt : s.MediaType = .ok typ) (hne : typ ≠ DssePayloadType) :
    (SLSAProvenanceFromSignature codec (some s)).record = none ∧
      (SLSAProvenanceFromSignature codec (some s)).err =
        some (AT002.CausedByF (mediaTypeMessage typ)) ∧
      (SLSAProvenanceFromSignature codec (some s)).calls = [.MediaType] := by
  unfold SLSAProvenanceFromSignature
  simp [hmt, hne]

/-- The decoding of a payload whose statement has content and a predicate
type other than the expected one fails with `AT004`, caused by that type. -/
theorem decodeProvenance_predicateType (codec : Codec) (bytes raw : List UInt8)
    (envelope : SignedEnvelope) (st : StatementFields)
    (he : codec.decodeEnvelope bytes = .ok envelope)
    (hb : codec.decodeBase64 envelope.payload = .ok raw)
    (hs : codec.decodeStatement raw = .ok st)
    (hcontent : noRecognizableContent st = false)
    (hpt : st.predicateType ≠ PredicateSLSAProvenance) :
    decodeProvenance codec bytes = .error (AT004.CausedByF st.predicateType) := by
  unfold decodeProvenance
  simp [he, hb, hs, hcontent, hpt]

/-- A statement that is decoded with success has the expected predicate
type. -/
theorem decodeProvenance_ok (codec : Codec) (bytes : List UInt8)
    (envelope : SignedEnvelope) (statement : ProvenanceStatement)
    (h : decodeProvenance codec bytes = .ok (envelope, statement)) :
    statement.fields.predicateType = PredicateSLSAProvenance := by
  unfold decodeProvenance at h
  cases he : codec.decodeEnvelope bytes with
  | error e => rw [he] at h; cases h
  | ok env =>
    rw [he] at h
    simp only at h
    cases hb : codec.decodeBase64 env.payload with
    | error e => rw [hb] at h; cases h
    | ok raw =>
      rw [hb] at h
      simp only at h
      cases hs : codec.decodeStatement raw with
      | error e => rw [hs] at h; cases h
      | ok st =>
        rw [hs] at h
        simp only at h
        by_cases hc : noRecognizableContent st = true
        · simp [hc] at h
        · by_cases hp : st.predicateType ≠ PredicateSLSAProvenance
          · simp [hc, hp] at h
          · simp only [hc, hp, if_false] at h
            cases h
            exact not_not.mp hp

/-- The extractor on a payload that fails to decode: the error of the
decoding, after the media type and the payload accessor. -/
theorem SLSAProvenanceFromSignature_decode_error (codec : Codec) (s : EnvelopeSource)
    (bytes : List UInt8) (e : CatalogError) (hmt : s.MediaType = .ok DssePayloadType)
    (hp : s.Uncompressed = .ok bytes) (hd : decodeProvenance codec bytes = .error e) :
    SLSAProvenanceFromSignature codec (some s) =
      { record := none, err := some e, calls := [.MediaType, .Uncompressed] } := by
  unfold SLSAProvenanceFromSignature
  simp [hmt, hp, hd]

/-- The extractor on a payload that decodes: its outcome is that of the
signer resolution. -/
theorem SLSAProvenanceFromSignature_decoded (codec : Codec) (s : EnvelopeSource)
    (bytes : List UInt8) (envelope : SignedEnvelope) (statement : ProvenanceStatement)
    (calls : List Accessor) (hmt : s.MediaType = .ok DssePayloadType)
    (hp : s.Uncompressed = .ok bytes)
    (hd : decodeProvenance codec bytes = .ok (envelope, statement)) :
    (∀ signer, resolveSigner s envelope.signatures = (.ok signer, calls) →
        SLSAProvenanceFromSignature codec (some s) =
          { record := some { statement := statement, signer := signer }, err := none,
            calls := [.MediaType, .Uncompressed] ++ calls }) ∧
      (∀ e, resolveSigner s envelope.signatures = (.error e, calls) →
        SLSAProvenanceFromSignature codec (some s) =
          { record := none, err := some e, calls := [.MediaType, .Uncompressed] ++ calls }) := by
  unfold SLSAProvenanceFromSignature
  constructor
  · intro signer hr
    simp [hmt, hp, hd, hr]
  · intro e hr
    simp [hmt, hp, hd, hr]

/-- The three cases of the signer resolution: a failing direct accessor, a
non-empty direct signature, and an empty one with a certificate and a
chain. -/
theorem resolveSigner_cases (s : EnvelopeSource) (declared : List DeclaredSignature) :
    (∀ e, s.Base64Signature = .error e →
        resolveSigner s declared = (.error (AT005.CausedByF e), [.Base64Signature])) ∧
      (∀ direct, s.Base64Signature = .ok direct → direct ≠ "" →
        resolveSigner s declared = (.ok (.signature direct declared), [.Base64Signature])) ∧
      (∀ cert chain, s.Base64Signature = .ok "" → s.Cert = .ok cert → s.Chain = .ok chain →
        resolveSigner s declared =
          (.ok (.certificate cert chain), [.Base64Signature, .Cert, .Chain])) := by
  unfold resolveSigner
  refine ⟨?_, ?_, ?_⟩
  · intro e h
    simp [h]
  · intro direct h hne
    simp [h, hne]
  · intro cert chain h hc hch
    simp [h, hc, hch]

/-- A record exists only for the expected predicate type. -/
theorem SLSAProvenanceFromSignature_predicateType (codec : Codec)
    (sig : Option EnvelopeSource) (rec : ProvenanceRecord)
    (h : (SLSAProvenanceFromSignature codec sig).record = some rec) :
    rec.statement.fields.predicateType = PredicateSLSAProvenance := by
  unfold SLSAProvenanceFromSignature at h
  cases sig with
  | none => simp at h
  | some s =>
    simp only at h
    cases hm : s.MediaType with
    | error e => rw [hm] at h; simp at h
    | ok typ =>
      rw [hm] at h
      simp only at h
      by_cases ht : typ ≠ DssePayloadType
      · simp [ht] at h
      · simp only [ht, if_false] at h
        cases hu : s.Uncompressed with
        | error e => rw [hu] at h; simp at h
        | ok bytes =>
          rw [hu] at h
          simp only at h
          cases hd : decodeProvenance codec bytes with
          | error e => rw [hd] at h; simp at h
          | ok p =>
            obtain ⟨envelope, statement⟩ := p
            rw [hd] at h
            simp only at h
            cases hr : resolveSigner s envelope.signatures with
            | mk res calls =>
              rw [hr] at h
              cases res with
              | error e => simp at h
              | ok signer =>
                simp only [Option.some.injEq] at h
                rw [← h]
                exact decodeProvenance_ok codec bytes envelope statement hd

/-- With a pattern that compiles, `GetBuildSignOff` returns an error exactly
on a text with no match, and then the empty string with it. -/
theorem GetBuildSignOff_error_iff (b : repoSignoffSource) (re : Regex)
    (hre : compile b.jiraMatch = .ok re) :
    ((∃ result err, b.GetBuildSignOff = .ret (result, some err)) ↔ noMatch re b.commit) ∧
      (noMatch re b.commit →
        b.GetBuildSignOff = .ret ("", some "there were no jira references found.")) ∧
      (¬ noMatch re b.commit → ∃ result, b.GetBuildSignOff = .ret (result, none)) := by
  have hno : noMatch re b.commit ↔ FindStringSubmatch re b.commit = [] := by
    rw [FindStringSubmatch_eq_nil_iff, search_eq_none_iff]
    rfl
  obtain ⟨h1, h2⟩ := GetBuildSignOff_of_compile b re hre
  refine ⟨⟨?_, ?_⟩, ?_, ?_⟩
  · rintro ⟨result, err, hr⟩
    by_contra hn
    have hne : FindStringSubmatch re b.commit ≠ [] := fun h => hn (hno.mpr h)
    rw [h2 hne] at hr
    cases hr
  · intro hn
    exact ⟨"", "there were no jira references found.", h1 (hno.mp hn)⟩
  · intro hn
    exact h1 (hno.mp hn)
  · intro hn
    exact ⟨_, h2 (fun h => hn (hno.mpr h))⟩


/-- The call panics on a text that is not a pattern. -/
theorem GetBuildSignOff_invalid_pattern (source : Repository) (commit : String) :
    repoSignoffSource.GetBuildSignOff
      { source := source, commit := commit, jiraMatch := "(" } = .panic := by
  rfl

/-- The loop of the `RunE` of `signOff.go` ends at the first attestation whose
sign-off source cannot be built. -/
theorem signOffLoop_aborts (clone : Clone) (att : attestation) (rest : List attestation)
    (out : List String) (source : Option buildSigner) (err : Error)
    (h : att.BuildSignoffSource clone = some (source, some err)) :
    signOffLoop clone (att :: rest) out = .ret (out, some err) := by
  unfold signOffLoop
  rw [h]
  cases source with
  | none => rfl
  | some signer => cases signer <;> rfl

/-! ## The sign-off resolver, the sign-off command and the report: claims -/

/-- C11: `GetBuildSignOff`, with a pattern that compiles, returns an error if
and only if the pattern has no match in the commit message; on no match it
returns the error together with the empty result, and on a match it returns
no error. -/
theorem C11_error_iff_no_match (b : repoSignoffSource) (re : Regex)
    (hre : compile b.jiraMatch = .ok re) :
    ((∃ result err, b.GetBuildSignOff = .ret (result, some err)) ↔ noMatch re b.commit) ∧
      (noMatch re b.commit →
        b.GetBuildSignOff = .ret ("", some "there were no jira references found.")) ∧
      (¬ noMatch re b.commit → ∃ result, b.GetBuildSignOff = .ret (result, none)) :=
  GetBuildSignOff_error_iff b re hre

/-- C11 at the default pattern and a commit message without a reference. -/
theorem C11_error_iff_no_match_witness :
    repoSignoffSource.GetBuildSignOff
        { source := ⟨fun _ => .error "object not found"⟩,
          commit := "Fix typo in README", jiraMatch := defaultJiraMatch } =
      .ret ("", some "there were no jira references found.") :=
  (C11_error_iff_no_match
    { source := ⟨fun _ => .error "object not found"⟩,
      commit := "Fix typo in README", jiraMatch := defaultJiraMatch }
    _ compile_defaultJiraMatch).2.1
    ((search_eq_none_iff _ _ _).mp (by decide))

/-- C12: the reference that `GetBuildSignOff` returns is the text of the last
capture group of the match. For every pattern, whatever slice
`FindStringSubmatch` returns for a match, the text `whole` of the match
followed by the texts `groups` of the capture groups, the statements after the
call return its last element: the text of the last group, and `whole` when
there is no group. In the model of `regexp`, for every pattern that compiles,
whose repetitions are over bodies that consume input, and every commit message
in which it matches, `GetBuildSignOff` is these statements on the result of
`FindStringSubmatch`, and returns the text of the group of the highest number
in the leftmost match, the text of the whole match when the pattern has no
capture group. -/
theorem C12_last_capture_group (b : repoSignoffSource) (re : Regex)
    (found : List Char × Thread) (hre : compile b.jiraMatch = .ok re)
    (hloops : loopsConsume re = true)
    (hm : search re b.commit.toList.length b.commit.toList = some found) :
    (∀ (whole : String) (groups : List String),
        signOffOfMatch (whole :: groups) = ((groups.getLast?).getD whole, none)) ∧
      b.GetBuildSignOff = .ret (signOffOfMatch (FindStringSubmatch re b.commit)) ∧
      b.GetBuildSignOff =
        .ret (if numSubexp re = 0 then matchText found
          else groupText found (numSubexp re), none) :=
  have _hloops := hloops
  ⟨signOffOfMatch_cons, GetBuildSignOff_eq_signOffOfMatch b re hre,
    GetBuildSignOff_of_match b re found hre hm⟩

/-- C12 at a pattern with two groups, whose second group is returned. -/
theorem C12_last_capture_group_witness :
    repoSignoffSource.GetBuildSignOff
        { source := ⟨fun _ => .error "object not found"⟩,
          commit := "see ab-17 and cd-2", jiraMatch := "([a-z]+)-(\\d+)" } =
      .ret ("17", none) :=
  (C12_last_capture_group
    { source := ⟨fun _ => .error "object not found"⟩,
      commit := "see ab-17 and cd-2", jiraMatch := "([a-z]+)-(\\d+)" }
    (.concat (.capture 1 (.plus (.charClass false [('a', 'z')] false) true))
      (.concat (.literal '-' false)
        (.capture 2 (.plus (.charClass false [('0', '9')] false) true))))
    ("ab-17 and cd-2".toList, " and cd-2".toList, [some "ab".toList, some "17".toList])
    (by decide) (by decide) (by decide)).2.2

/-- C13, the code at any two attestations: `getBuildCommitSha` and
`getBuildSCM` do not read the attestation; they return the same fixed commit
and the same fixed repository for every attestation. -/
theorem C13_build_commit_hard_coded (a b : attestation) :
    a.getBuildCommitSha = b.getBuildCommitSha ∧ a.getBuildSCM = b.getBuildSCM ∧
      a.getBuildCommitSha = "4be9282d0c47ff3046fd56c8067e6f0e83822a77" ∧
      a.getBuildSCM = "https://github.com/joejstuart/ec-policies.git" :=
  ⟨rfl, rfl, rfl, rfl⟩

/-- C13 at two attestations that record builds from different commits of
different repositories: the commit identifier and the repository are the
same for both. -/
theorem C13_build_commit_hard_coded_witness :
    (attestationOfCommit "git+https://github.com/org/app.git"
        "1111111111111111111111111111111111111111").getBuildCommitSha =
      (attestationOfCommit "git+https://github.com/org/lib.git"
        "2222222222222222222222222222222222222222").getBuildCommitSha ∧
    (attestationOfCommit "git+https://github.com/org/app.git"
        "1111111111111111111111111111111111111111").getBuildSCM =
      (attestationOfCommit "git+https://github.com/org/lib.git"
        "2222222222222222222222222222222222222222").getBuildSCM :=
  ⟨(C13_build_commit_hard_coded _ _).1, (C13_build_commit_hard_coded _ _).2.1⟩

/-- C14, refuted as stated: for an image with two attestations, the first
without a usable sign-off source (`NewSignOffSource` fails) and the second
resolving to the sign-off `ABC-123`, `validate` returns the error of the first
and prints nothing, although the second alone is printed. -/
theorem C14_validate_aborts_counterexample :
    validate (σ := String)
        { ValidateImage := fun _ _ =>
            .ok [⟨(none, some "repository not found")⟩, ⟨(some ⟨(some "ABC-123", none)⟩, none)⟩],
          Marshal := fun signOff => .ok signOff }
        "registry.io/app@sha256:0a" "key.pub" =
      ([], some "repository not found") ∧
    validate (σ := String)
        { ValidateImage := fun _ _ => .ok [⟨(some ⟨(some "ABC-123", none)⟩, none)⟩],
          Marshal := fun signOff => .ok signOff }
        "registry.io/app@sha256:0a" "key.pub" =
      (["ABC-123"], none) := by
  decide

/-- C14, amended: in `validate`, the processing of the attestations of one
image stops at the first failure. When the attestations before the first
failing one all resolve, their sign-offs are emitted, in order, the failure is
returned as the error of `validate`, and no later attestation is processed,
whatever it is. One level up, `RunE` goes on after a failed image: it emits
what `validate` emits for each image and returns no error. -/
theorem C14_validate_stops_at_first_failure {σ : Type} (env : SignOffEnv σ)
    (imageRef publicKey : String) (pre post : List (SignOffAttestation σ))
    (bad : SignOffAttestation σ) (err : Error)
    (himg : env.ValidateImage imageRef publicKey = .ok (pre ++ bad :: post))
    (hpre : ∀ a ∈ pre, ∃ o, validateStep env.Marshal a = .ok o)
    (hbad : validateStep env.Marshal bad = .error err) :
    validate env imageRef publicKey = (pre.filterMap (emittedLine env.Marshal), some err) ∧
      ∀ images : List String,
        (signOffRunE env publicKey images).1 =
            images.flatMap (fun i => (validate env i publicKey).1) ∧
          (signOffRunE env publicKey images).2.2 = none := by
  refine ⟨?_, signOffRunE_eq env publicKey⟩
  unfold validate
  rw [himg]
  simp only
  rw [validateLoop_first_failure env.Marshal bad post err hbad pre [] hpre]
  simp

/-- C14 (amended) at an image with three attestations, the second of which
has no sign-off source: the first sign-off is emitted, the third is not. -/
theorem C14_validate_stops_at_first_failure_witness :
    validate (σ := String)
        { ValidateImage := fun _ _ =>
            .ok [⟨(some ⟨(some "ABC-123", none)⟩, none)⟩, ⟨(none, none)⟩,
              ⟨(some ⟨(some "DEF-456", none)⟩, none)⟩],
          Marshal := fun signOff => .ok signOff }
        "registry.io/app@sha256:0a" "key.pub" =
      (["ABC-123"], some "there is no signoff source in attestation") :=
  (C14_validate_stops_at_first_failure (σ := String)
    { ValidateImage := fun _ _ =>
        .ok [⟨(some ⟨(some "ABC-123", none)⟩, none)⟩, ⟨(none, none)⟩,
          ⟨(some ⟨(some "DEF-456", none)⟩, none)⟩],
      Marshal := fun signOff => .ok signOff }
    "registry.io/app@sha256:0a" "key.pub"
    [⟨(some ⟨(some "ABC-123", none)⟩, none)⟩] [⟨(some ⟨(some "DEF-456", none)⟩, none)⟩]
    ⟨(none, none)⟩ "there is no signoff source in attestation" rfl
    (fun a ha => by
      rw [List.mem_singleton] at ha
      subst ha
      exact ⟨some "ABC-123", rfl⟩)
    rfl).1

/-- C15, the code where a statement fails to decode: `attestations` returns
the empty list with a nil error, so the decode failure is not reported. -/
theorem C15_attestations_swallows_decode_failure {τ : Type}
    (unmarshal : List UInt8 → Except Error τ) (r : Report)
    (h : ∃ c ∈ r.Components, ∃ a ∈ c.Attestations, ∃ err,
      unmarshal a.Statement = .error err) :
    r.attestations unmarshal = ([], none) := by
  unfold Report.attestations
  rw [attestationsOfComponents_failure unmarshal r.Components [] h]

/-- C15 at a report whose second attestation has empty statement bytes, on
which decoding fails: the result is the empty list and no error. -/
theorem C15_attestations_swallows_decode_failure_witness :
    Report.attestations (τ := List UInt8)
        (fun bytes => if bytes = [] then .error "unexpected end of JSON input" else .ok bytes)
        { Components := [{ Attestations := [⟨[123, 125]⟩, ⟨[]⟩] }] } =
      ([], none) :=
  C15_attestations_swallows_decode_failure
    (fun bytes => if bytes = [] then .error "unexpected end of JSON input" else .ok bytes)
    { Components := [{ Attestations := [⟨[123, 125]⟩, ⟨[]⟩] }] }
    ⟨{ Attestations := [⟨[123, 125]⟩, ⟨[]⟩] }, List.mem_singleton.mpr rfl, ⟨[]⟩,
      List.mem_cons_of_mem _ (List.mem_singleton.mpr rfl),
      "unexpected end of JSON input", rfl⟩

/-- C16: for every report `renderAttestations` returns no error and the
`Statement()` bytes of every attestation, ordered by component and then by
attestation within the component, line-delimited: each but the last followed
by one newline byte and the last by nothing. The output is empty for a report
with no attestations, and for statements that hold no newline byte it holds
one newline byte less than there are statements. -/
theorem C16_renderAttestations_line_delimited (r : Report) :
    r.renderAttestations.2 = none ∧
      r.renderAttestations.1 = lineDelimited r.statementsInOrder ∧
      (r.statementsInOrder = [] → r.renderAttestations.1 = []) ∧
      (∀ (init : List (List UInt8)) (last : List UInt8),
        r.statementsInOrder = init ++ [last] →
        r.renderAttestations.1 = init.flatMap (fun v => v ++ [10]) ++ last) ∧
      ((∀ v ∈ r.statementsInOrder, (10 : UInt8) ∉ v) →
        r.renderAttestations.1.count 10 = r.statementsInOrder.length - 1) := by
  have hrender : r.renderAttestations.1 = lineDelimited r.statementsInOrder := by
    unfold Report.renderAttestations
    rw [Report.statementBytes_eq, bytesJoin_newline]
  refine ⟨rfl, hrender, ?_, ?_, ?_⟩
  · intro h
    rw [hrender, h]
    rfl
  · intro init last h
    rw [hrender, h, lineDelimited_concat]
  · intro h
    rw [hrender, lineDelimited_count _ h]

/-- C16 at a report with two components and three attestations. -/
theorem C16_renderAttestations_line_delimited_witness :
    Report.renderAttestations
        { Components := [{ Attestations := [⟨[123, 125]⟩, ⟨[91, 93]⟩] }, { Attestations := [] },
            { Attestations := [⟨[49]⟩] }] } =
      ([123, 125, 10, 91, 93, 10, 49], none) :=
  Prod.ext
    ((C16_renderAttestations_line_delimited
      { Components := [{ Attestations := [⟨[123, 125]⟩, ⟨[91, 93]⟩] }, { Attestations := [] },
          { Attestations := [⟨[49]⟩] }] }).2.1.trans (by decide))
    (C16_renderAttestations_line_delimited
      { Components := [{ Attestations := [⟨[123, 125]⟩, ⟨[91, 93]⟩] }, { Attestations := [] },
          { Attestations := [⟨[49]⟩] }] }).1

/-! ## The provenance extractor: claims -/

/-- C17: on the nil source the extractor returns a nil record together with
the InputMissing error `AT001`, consulting nothing; and for every source,
whenever it returns an error the record is nil. -/
theorem C17_nil_source_and_error_no_record (codec : Codec) :
    (SLSAProvenanceFromSignature codec none).record = none ∧
      (SLSAProvenanceFromSignature codec none).err = some AT001 ∧
      AT001.code = "AT001" ∧
      ∀ sig : Option EnvelopeSource,
        (SLSAProvenanceFromSignature codec sig).err ≠ none →
        (SLSAProvenanceFromSignature codec sig).record = none :=
  ⟨rfl, rfl, rfl, fun sig => (SLSAProvenanceFromSignature_record_iff codec sig).1⟩

/-- C18: for every envelope source whose media type is read with success but
differs from the expected one, the empty media type included, the extractor
returns no record and the error `AT002` caused by the message that names the
expected and the actual media type, and it does not read the payload: the
media type accessor is the only one consulted. -/
theorem C18_media_type_mismatch (codec : Codec) (s : EnvelopeSource) (typ : String)
    (hmt : s.MediaType = .ok typ) (hne : typ ≠ "application/vnd.dsse.envelope.v1+json") :
    (SLSAProvenanceFromSignature codec (some s)).record = none ∧
      (SLSAProvenanceFromSignature codec (some s)).err =
        some (AT002.CausedByF
          ("Expecting media type of `application/vnd.dsse.envelope.v1+json`, received: `" ++
            typ ++ "`")) ∧
      Accessor.Uncompressed ∉ (SLSAProvenanceFromSignature codec (some s)).calls ∧
      (SLSAProvenanceFromSignature codec (some s)).calls = [.MediaType] := by
  obtain ⟨h1, h2, h3⟩ := SLSAProvenanceFromSignature_mediaType codec s typ hmt hne
  refine ⟨h1, h2, ?_, h3⟩
  rw [h3]
  decide

/-- C18 at the test cases `no media type` and `unsupported media type`. -/
theorem C18_media_type_mismatch_witness :
    (SLSAProvenanceFromSignature (fixedCodec ⟨"", []⟩ [] validStatement)
        (some ⟨.ok "", .error "not read", .error "not read", .error "not read",
          .error "not read"⟩)).err =
      some (AT002.CausedByF
        "Expecting media type of `application/vnd.dsse.envelope.v1+json`, received: ``") ∧
    (SLSAProvenanceFromSignature (fixedCodec ⟨"", []⟩ [] validStatement)
        (some ⟨.ok "xxx", .error "not read", .error "not read", .error "not read",
          .error "not read"⟩)).err =
      some (AT002.CausedByF
        "Expecting media type of `application/vnd.dsse.envelope.v1+json`, received: `xxx`") :=
  ⟨(C18_media_type_mismatch (fixedCodec ⟨"", []⟩ [] validStatement)
      ⟨.ok "", .error "not read", .error "not read", .error "not read", .error "not read"⟩
      "" rfl (by decide)).2.1,
    (C18_media_type_mismatch (fixedCodec ⟨"", []⟩ [] validStatement)
      ⟨.ok "xxx", .error "not read", .error "not read", .error "not read", .error "not read"⟩
      "xxx" rfl (by decide)).2.1⟩

/-- C19: for every well-formed envelope, one whose media type is the expected
one and whose payload is read and decodes to a statement with content, if the
`predicateType` of that statement differs from the expected provenance
identifier then the extractor returns no record and the error `AT004` caused
by the received `predicateType`; hence a record exists only for the expected
`predicateType`. -/
theorem C19_unexpected_predicate_type (codec : Codec) (s : EnvelopeSource)
    (bytes raw : List UInt8) (envelope : SignedEnvelope) (st : StatementFields)
    (hmt : s.MediaType = .ok DssePayloadType) (hp : s.Uncompressed = .ok bytes)
    (he : codec.decodeEnvelope bytes = .ok envelope)
    (hb : codec.decodeBase64 envelope.payload = .ok raw)
    (hs : codec.decodeStatement raw = .ok st)
    (hcontent : noRecognizableContent st = false)
    (hpt : st.predicateType ≠ "https://slsa.dev/provenance/v0.2") :
    ((SLSAProvenanceFromSignature codec (some s)).record = none ∧
        (SLSAProvenanceFromSignature codec (some s)).err =
          some (AT004.CausedByF st.predicateType)) ∧
      ∀ (codec2 : Codec) (sig : Option EnvelopeSource) (rec : ProvenanceRecord),
        (SLSAProvenanceFromSignature codec2 sig).record = some rec →
        rec.statement.fields.predicateType = "https://slsa.dev/provenance/v0.2" := by
  have hd := decodeProvenance_predicateType codec bytes raw envelope st he hb hs hcontent hpt
  rw [SLSAProvenanceFromSignature_decode_error codec s bytes _ hmt hp hd]
  exact ⟨⟨rfl, rfl⟩, fun codec2 sig rec h =>
    SLSAProvenanceFromSignature_predicateType codec2 sig rec h⟩

/-- C19 at the test case `unexpected predicate type`, the statement with the
in-toto type and the predicate type `kaboom`. -/
theorem C19_unexpected_predicate_type_witness :
    (SLSAProvenanceFromSignature
        (fixedCodec ⟨"e30=", [⟨"key-id-1", "sig-1"⟩]⟩ [123, 125]
          ⟨"https://in-toto.io/Statement/v0.1", "kaboom", [], []⟩)
        (some ⟨.ok DssePayloadType, .ok [123, 125], .error "not read", .error "not read",
          .error "not read"⟩)).err =
      some (AT004.CausedByF "kaboom") :=
  (C19_unexpected_predicate_type
    (fixedCodec ⟨"e30=", [⟨"key-id-1", "sig-1"⟩]⟩ [123, 125]
      ⟨"https://in-toto.io/Statement/v0.1", "kaboom", [], []⟩)
    ⟨.ok DssePayloadType, .ok [123, 125], .error "not read", .error "not read",
      .error "not read"⟩
    [123, 125] [123, 125] ⟨"e30=", [⟨"key-id-1", "sig-1"⟩]⟩
    ⟨"https://in-toto.io/Statement/v0.1", "kaboom", [], []⟩
    rfl rfl rfl rfl rfl (by decide) (by decide)).1.2

/-- C20, refuted as stated: for a valid envelope whose direct signature
accessor fails with `kaboom` while its certificate and chain accessors
succeed, the extractor does not fall back: it returns no record and the error
`AT005` caused by `kaboom`, as in the test case `cannot create entity
signature`. -/
theorem C20_direct_signature_error_counterexample :
    (SLSAProvenanceFromSignature (fixedCodec ⟨"e30=", []⟩ [123, 125] validStatement)
        (some ⟨.ok DssePayloadType, .ok [123, 125], .error "kaboom", .ok ⟨[]⟩,
          .ok []⟩)).err = some (AT005.CausedByF "kaboom") ∧
      (SLSAProvenanceFromSignature (fixedCodec ⟨"e30=", []⟩ [123, 125] validStatement)
        (some ⟨.ok DssePayloadType, .ok [123, 125], .error "kaboom", .ok ⟨[]⟩,
          .ok []⟩)).record.isNone = true ∧
      (SLSAProvenanceFromSignature (fixedCodec ⟨"e30=", []⟩ [123, 125] validStatement)
        (some ⟨.ok DssePayloadType, .ok [123, 125], .ok "", .ok ⟨[]⟩,
          .ok []⟩)).record.isSome = true := by
  decide

/-- C20, amended: for every valid envelope, when the direct base64 signature
accessor returns an empty string and the certificate and chain accessors
succeed, the extractor succeeds with a record signed by the certificate
variant; when the direct signature is non-empty it succeeds with the
signature variant, paired with the declared signatures, without consulting
the certificate or the chain accessor; when the direct accessor returns an
error the extractor returns no record and the error `AT005` caused by that
error, without consulting the certificate or the chain accessor. -/
theorem C20_signer_resolution (codec : Codec) (s : EnvelopeSource) (bytes : List UInt8)
    (envelope : SignedEnvelope) (statement : ProvenanceStatement)
    (hmt : s.MediaType = .ok DssePayloadType) (hp : s.Uncompressed = .ok bytes)
    (hd : decodeProvenance codec bytes = .ok (envelope, statement)) :
    (∀ cert chain, s.Base64Signature = .ok "" → s.Cert = .ok cert → s.Chain = .ok chain →
        (SLSAProvenanceFromSignature codec (some s)).record =
            some { statement := statement, signer := .certificate cert chain } ∧
          (SLSAProvenanceFromSignature codec (some s)).err = none) ∧
      (∀ direct, s.Base64Signature = .ok direct → direct ≠ "" →
        (SLSAProvenanceFromSignature codec (some s)).record =
            some { statement := statement, signer := .signature direct envelope.signatures } ∧
          (SLSAProvenanceFromSignature codec (some s)).err = none ∧
          Accessor.Cert ∉ (SLSAProvenanceFromSignature codec (some s)).calls ∧
          Accessor.Chain ∉ (SLSAProvenanceFromSignature codec (some s)).calls) ∧
      (∀ e, s.Base64Signature = .error e →
        (SLSAProvenanceFromSignature codec (some s)).record = none ∧
          (SLSAProvenanceFromSignature codec (some s)).err = some (AT005.CausedByF e) ∧
          Accessor.Cert ∉ (SLSAProvenanceFromSignature codec (some s)).calls ∧
          Accessor.Chain ∉ (SLSAProvenanceFromSignature codec (some s)).calls) := by
  obtain ⟨r1, r2, r3⟩ := resolveSigner_cases s envelope.signatures
  refine ⟨?_, ?_, ?_⟩
  · intro cert chain hb hc hch
    rw [(SLSAProvenanceFromSignature_decoded codec s bytes envelope statement _ hmt hp hd).1
      _ (r3 cert chain hb hc hch)]
    exact ⟨rfl, rfl⟩
  · intro direct hb hne
    rw [(SLSAProvenanceFromSignature_decoded codec s bytes envelope statement _ hmt hp hd).1
      _ (r2 direct hb hne)]
    exact ⟨rfl, rfl, by simp, by simp⟩
  · intro e hb
    rw [(SLSAProvenanceFromSignature_decoded codec s bytes envelope statement _ hmt hp hd).2
      _ (r1 e hb)]
    exact ⟨rfl, rfl, by simp, by simp⟩

/-- C20 (amended) at the envelope of the valid test cases, with the direct
signature `sig-from-cert`: the signature variant, the certificate and chain
accessors not consulted. -/
theorem C20_signer_resolution_witness :
    (SLSAProvenanceFromSignature
        (fixedCodec ⟨"e30=", [⟨"ignored-1", "ignored-1"⟩]⟩ [123, 125] validStatement)
        (some ⟨.ok DssePayloadType, .ok [123, 125], .ok "sig-from-cert", .error "not read",
          .error "not read"⟩)).calls = [.MediaType, .Uncompressed, .Base64Signature] ∧
      (SLSAProvenanceFromSignature
        (fixedCodec ⟨"e30=", [⟨"ignored-1", "ignored-1"⟩]⟩ [123, 125] validStatement)
        (some ⟨.ok DssePayloadType, .ok [123, 125], .ok "sig-from-cert", .error "not read",
          .error "not read"⟩)).err = none :=
  ⟨by decide,
    ((C20_signer_resolution
      (fixedCodec ⟨"e30=", [⟨"ignored-1", "ignored-1"⟩]⟩ [123, 125] validStatement)
      ⟨.ok DssePayloadType, .ok [123, 125], .ok "sig-from-cert", .error "not read",
        .error "not read"⟩
      [123, 125] ⟨"e30=", [⟨"ignored-1", "ignored-1"⟩]⟩
      ⟨validStatement, [123, 125]⟩ rfl rfl rfl).2.1 "sig-from-cert" rfl (by decide)).2.1⟩

/-! ## Implicit behaviour: lemmas -/

/-- With an empty list `I` and a non-empty list `E`, the result does not
depend on the legacy configuration: include is the wildcard and exclude is
`E`. -/
theorem computeIncludeExclude_exclude_only (src : Source) (now : Time) (image : String)
    (hI : specInclude src now image = []) (hE : specExclude src now image ≠ [])
    (spec : EnterpriseContractPolicySpec) :
    (computeIncludeExclude src ⟨now, spec⟩ image).1 = ["*"] ∧
      (computeIncludeExclude src ⟨now, spec⟩ image).2.1 = specExclude src now image := by
  obtain ⟨h1, h2⟩ := computeIncludeExclude_of_nonempty src ⟨now, spec⟩ image (Or.inr hE)
  refine ⟨?_, h1⟩
  rw [h2]
  simp only []
  rw [if_pos hI]

/-- A successful search returns the leftmost match: no match starts at a
position before the one it returns. -/
theorem search_leftmost (re : Regex) (total : Nat) :
    ∀ (s start : List Char) (t : Thread), search re total s = some (start, t) →
      ∀ u : List Char, u <:+ s → start <:+ u → u ≠ start →
        run total re u (List.replicate (numSubexp re) none) = [] := by
  intro s
  induction s with
  | nil =>
    intro start t h u hu hsu hne
    have h1 : u = [] := List.suffix_nil.mp hu
    subst h1
    have h2 : start = [] := List.suffix_nil.mp hsu
    exact absurd h2.symm hne
  | cons x xs ih =>
    intro start t h u hu hsu hne
    unfold search at h
    cases hr : run total re (x :: xs) (List.replicate (numSubexp re) none) with
    | nil =>
      rw [hr] at h
      simp only at h
      rcases List.suffix_cons_iff.mp hu with h1 | h1
      · rw [h1]; exact hr
      · exact ih start t h u h1 hsu hne
    | cons a l =>
      rw [hr] at h
      simp only [Option.some.injEq, Prod.mk.injEq] at h
      obtain ⟨h1, _⟩ := h
      subst h1
      have hlen : u.length = (x :: xs).length :=
        Nat.le_antisymm hu.length_le hsu.length_le
      exact absurd (hu.eq_of_length hlen) hne

/-- A text is not itself followed by a comma and more text. -/
theorem ne_append_comma (ref extra : String) : ref ≠ ref ++ "," ++ extra := by
  intro h
  have hlen := congrArg String.length h
  simp only [String.length_append] at hlen
  have : (",".length : Nat) = 1 := rfl
  omega

/-- On a text with a match, `GetBuildSignOff` returns one reference, that of
the leftmost match, and never that reference followed by a comma and more. -/
theorem GetBuildSignOff_single_reference (b : repoSignoffSource) (re : Regex)
    (found : List Char × Thread) (hre : compile b.jiraMatch = .ok re)
    (hm : search re b.commit.toList.length b.commit.toList = some found) :
    b.GetBuildSignOff =
        .ret (if numSubexp re = 0 then matchText found
          else groupText found (numSubexp re), none) ∧
      (∀ u : List Char, u <:+ b.commit.toList → found.1 <:+ u → u ≠ found.1 →
        run b.commit.toList.length re u (List.replicate (numSubexp re) none) = []) ∧
      ∀ extra : String,
        b.GetBuildSignOff ≠
          .ret ((if numSubexp re = 0 then matchText found
            else groupText found (numSubexp re)) ++ "," ++ extra, none) := by
  have h := GetBuildSignOff_of_match b re found hre hm
  refine ⟨h, search_leftmost re _ _ found.1 found.2 hm, ?_⟩
  intro extra hx
  rw [h] at hx
  simp only [Outcome.ret.injEq, Prod.mk.injEq, and_true] at hx
  exact ne_append_comma _ _ hx

/-! ## Implicit behaviour: claims -/

/-- C21: the legacy policy configuration is consulted only when both resolved
lists are empty. For every source whose static and volatile configuration
yield an empty include list and a non-empty exclude list,
`computeIncludeExclude` returns include `["*"]` and as exclude that list, with
no legacy entry added, whatever the legacy configuration is; so the resolved
include list depends on the exclude rules: under one legacy configuration, a
source with the static exclude entry `x` resolves to include `["*"]` and the
source without it to the legacy include entries. -/
theorem C21_legacy_only_when_both_empty (src : Source) (now : Time) (image : String)
    (hI : specInclude src now image = []) (hE : specExclude src now image ≠ []) :
    (∀ spec : EnterpriseContractPolicySpec,
        (computeIncludeExclude src ⟨now, spec⟩ image).1 = ["*"] ∧
        (computeIncludeExclude src ⟨now, spec⟩ image).2.1 = specExclude src now image) ∧
      ((computeIncludeExclude ⟨some ⟨[], ["x"]⟩, none⟩
          ⟨now, ⟨some ⟨["minimal"], ["ly"], ["li"]⟩⟩⟩ image).1 = ["*"] ∧
        (computeIncludeExclude ⟨some ⟨[], []⟩, none⟩
          ⟨now, ⟨some ⟨["minimal"], ["ly"], ["li"]⟩⟩⟩ image).1 = ["li", "@minimal"]) :=
  ⟨computeIncludeExclude_exclude_only src now image hI hE, rfl, rfl⟩

/-- C21 at a source with a static exclude entry, an expired volatile include
rule and an active volatile exclude rule, under a legacy configuration with
include, exclude and collection entries. -/
theorem C21_legacy_only_when_both_empty_witness :
    computeIncludeExclude
        ⟨some ⟨[], ["x"]⟩,
          some ⟨[⟨"old", "2021-01-01T00:00:00Z", "2021-12-31T00:00:00Z", ""⟩],
                [⟨"y", "", "", ""⟩]⟩⟩
        ⟨1685577600000000000, ⟨some ⟨["minimal"], ["ly"], ["li"]⟩⟩⟩ "img-A" =
      (["*"], ["x", "y"], []) :=
  Prod.ext
    ((C21_legacy_only_when_both_empty
      ⟨some ⟨[], ["x"]⟩,
        some ⟨[⟨"old", "2021-01-01T00:00:00Z", "2021-12-31T00:00:00Z", ""⟩],
              [⟨"y", "", "", ""⟩]⟩⟩
      1685577600000000000 "img-A" (by decide) (by decide)).1
      ⟨some ⟨["minimal"], ["ly"], ["li"]⟩⟩).1
    (by decide)

/-- C22: `GetBuildSignOff` reports at most one reference. For every pattern,
whatever slice `FindStringSubmatch` returns for the one match it looks for,
the statements after the call return one element of that slice. In the model
of `regexp`, for every pattern that compiles, whose repetitions are over
bodies that consume input, and every commit message in which it matches more
than once, a leftmost match and a later match in the text after it, the result
is the last capture group of the leftmost match only, before whose position no
match starts; the result is not that reference followed by a comma and the
reference of the later match, nor by anything else. -/
theorem C22_leftmost_match_only (b : repoSignoffSource) (re : Regex)
    (found later : List Char × Thread) (hre : compile b.jiraMatch = .ok re)
    (hloops : loopsConsume re = true)
    (hm : search re b.commit.toList.length b.commit.toList = some found)
    (hlater : search re b.commit.toList.length found.2.1 = some later) :
    (∀ (whole : String) (groups : List String),
        (signOffOfMatch (whole :: groups)).1 ∈ whole :: groups ∧
          (signOffOfMatch (whole :: groups)).2 = none) ∧
      b.GetBuildSignOff = .ret (signOffOfMatch (FindStringSubmatch re b.commit)) ∧
      b.GetBuildSignOff =
        .ret (if numSubexp re = 0 then matchText found
          else groupText found (numSubexp re), none) ∧
      (∀ u : List Char, u <:+ b.commit.toList → found.1 <:+ u → u ≠ found.1 →
        run b.commit.toList.length re u (List.replicate (numSubexp re) none) = []) ∧
      b.GetBuildSignOff ≠
        .ret ((if numSubexp re = 0 then matchText found
            else groupText found (numSubexp re)) ++ "," ++
          (if numSubexp re = 0 then matchText later
            else groupText later (numSubexp re)), none) ∧
      ∀ extra : String,
        b.GetBuildSignOff ≠
          .ret ((if numSubexp re = 0 then matchText found
            else groupText found (numSubexp re)) ++ "," ++ extra, none) :=
  have h := GetBuildSignOff_single_reference b re found hre hm
  have _hloops := hloops
  have _hlater := hlater
  ⟨signOffOfMatch_mem, GetBuildSignOff_eq_signOffOfMatch b re hre, h.1, h.2.1, h.2.2 _, h.2.2⟩

/-- C22 at the default pattern and a commit message with two references: the
first is returned, the second is not. -/
theorem C22_leftmost_match_only_witness :
    repoSignoffSource.GetBuildSignOff
        { source := ⟨fun _ => .error "object not found"⟩,
          commit := "RedHat JIRA Issue: ABC-123, RedHat JIRA Issue: DEF-456",
          jiraMatch := defaultJiraMatch } =
      .ret ("ABC-123", none) :=
  (C22_leftmost_match_only
    { source := ⟨fun _ => .error "object not found"⟩,
      commit := "RedHat JIRA Issue: ABC-123, RedHat JIRA Issue: DEF-456",
      jiraMatch := defaultJiraMatch }
    _
    ("RedHat JIRA Issue: ABC-123, RedHat JIRA Issue: DEF-456".toList,
      ", RedHat JIRA Issue: DEF-456".toList, [some "ABC-123".toList])
    ("RedHat JIRA Issue: DEF-456".toList, [], [some "DEF-456".toList])
    compile_defaultJiraMatch (by decide) (by decide) (by decide)).2.2.1

end Ec
